import Mathlib

/-!
Verification of the MsGraph-Mcp bounded-response cache and drill-down
resolver.  The definitions below are a shallow embedding of the TypeScript
source: JavaScript `Map`s become association lists in insertion order,
`Date.now()` becomes an explicit `now : Nat` argument, `Math.random()`
becomes an explicit suffix argument, and network calls become oracle
functions passed in as parameters.
-/

set_option maxHeartbeats 1000000
set_option maxRecDepth 20000

/-! ## JavaScript `Map` semantics as insertion-ordered association lists -/

/-- `Map.get`: first binding for the key (keys are unique in a JS `Map`). -/
def mapGet {α : Type} (m : List (String × α)) (k : String) : Option α :=
  (m.find? (fun p => p.1 == k)).map Prod.snd

/-- `Map.set`: replace the binding in place if the key is present,
otherwise append a new binding at the end (JS `Map` insertion order). -/
def mapSet {α : Type} (m : List (String × α)) (k : String) (v : α) :
    List (String × α) :=
  if (m.find? (fun p => p.1 == k)).isSome then
    m.map (fun p => if p.1 == k then (k, v) else p)
  else
    m ++ [(k, v)]

/-- `Map.delete`: remove the binding for the key. -/
def mapDelete {α : Type} (m : List (String × α)) (k : String) :
    List (String × α) :=
  m.filter (fun p => !(p.1 == k))

/-! ## Data model (src/types): retrieval hits, attachments, cache entries -/

/-- One scored text extract of a Copilot retrieval hit.  The JS relevance
score is a float used only through order comparisons; it is embedded as an
integer. -/
structure Extract where
  text : String
  relevanceScore : Int
deriving Repr, DecidableEq

/-- A Copilot retrieval hit (the fields the cache and resolver read). -/
structure CopilotRetrievalHit where
  webUrl : String
  resourceType : String
  sensitivityLabel : Option String
  resourceMetadata : Option String
  extracts : List Extract
deriving Repr, DecidableEq

/-- Attachment payload stored by the attachment cache. -/
structure AttachmentData where
  name : String
  contentType : String
  contentBytes : String
  size : Nat
deriving Repr, DecidableEq

/-- `CachedSearch` record of `ResultCache`. -/
structure CachedSearch where
  searchId : String
  query : String
  timestamp : Nat
  results : List CopilotRetrievalHit
deriving Repr, DecidableEq

/-- `CachedAttachment` record of `ResultCache`. -/
structure CachedAttachment where
  attachmentId : String
  messageId : String
  timestamp : Nat
  attachment : AttachmentData
deriving Repr, DecidableEq

/-- The state of `ResultCache`: the two JS `Map`s plus the configuration.
The sweep interval timer is external scheduling; its body `cleanupExpired`
is embedded below and can be applied at any `now`. -/
structure ResultCache where
  searchCache : List (String × CachedSearch)
  attachmentCache : List (String × CachedAttachment)
  ttlMs : Nat
  maxEntries : Nat
deriving Repr, DecidableEq

/-- `new ResultCache(ttlMs, maxEntries)` (caches start empty). -/
def ResultCache.mkEmpty (ttlMs maxEntries : Nat) : ResultCache :=
  { searchCache := [], attachmentCache := [], ttlMs := ttlMs,
    maxEntries := maxEntries }

/-! ## Decimal rendering of JS numbers (used by template interpolation) -/

/-- One decimal digit character. -/
def digitChar (d : Nat) : Char :=
  Char.ofNat (48 + d)

/-- Fuel-indexed decimal digits (most significant first). -/
def natDecimalAux : Nat → Nat → List Char
  | 0, _ => []
  | fuel + 1, n =>
    if n < 10 then [digitChar n]
    else natDecimalAux fuel (n / 10) ++ [digitChar (n % 10)]

/-- Decimal representation of a natural number, as JS renders an integral
number into a template string. -/
def natDecimal (n : Nat) : List Char :=
  natDecimalAux (n + 1) n

/-- Decimal representation as a `String`. -/
def natDecimalStr (n : Nat) : String :=
  String.mk (natDecimal n)

/-- Value of a decimal digit list (what `parseInt(s, 10)` returns on an
all-digit string). -/
def digitsToNat (cs : List Char) : Nat :=
  cs.foldl (fun acc ch => acc * 10 + (ch.toNat - 48)) 0

/-! ## ResultCache operations (src/utils/resultCache.ts, part_018) -/

/-- `generateSearchId()`: interpolates `Date.now()` and a random base-36
suffix.  Time and the random draw are explicit inputs of the embedding. -/
def generateSearchId (nowMs : Nat) (randSuffix : String) : String :=
  String.mk (natDecimal nowMs) ++ "-" ++ randSuffix

/-- `generateAttachmentId(messageId, attachmentId)`. -/
def generateAttachmentId (messageId attachmentId : String) : String :=
  messageId ++ ":" ++ attachmentId

/-- The body of the `evictOldest*` scan: walk the entries carrying the
current best `(id, timestamp)`; `none` plays the role of the initial
`Infinity` sentinel, and only a strictly smaller timestamp replaces the
best, so insertion order breaks ties. -/
def oldestScan {α : Type} (ts : α → Nat) :
    List (String × α) → Option (String × Nat) → Option (String × Nat)
  | [], best => best
  | (k, v) :: rest, best =>
    match best with
    | none => oldestScan ts rest (some (k, ts v))
    | some b =>
      if ts v < b.2 then oldestScan ts rest (some (k, ts v))
      else oldestScan ts rest (some b)

/-- Key of the oldest entry of a map (`none` on an empty map). -/
def oldestKey {α : Type} (ts : α → Nat) (m : List (String × α)) :
    Option String :=
  (oldestScan ts m none).map Prod.fst

/-- `evictOldestSearch()`.  The source's final `if (oldestId)` is a JS
truthiness test on the key string, so when the oldest entry is keyed by
the empty string (falsy) no eviction happens at all. -/
def ResultCache.evictOldestSearch (c : ResultCache) : ResultCache :=
  match oldestKey (fun e => e.timestamp) c.searchCache with
  | none => c
  | some oid =>
    if oid = "" then c
    else { c with searchCache := mapDelete c.searchCache oid }

/-- `evictOldestAttachment()` (same falsy-empty-key guard as
`evictOldestSearch`). -/
def ResultCache.evictOldestAttachment (c : ResultCache) : ResultCache :=
  match oldestKey (fun e => e.timestamp) c.attachmentCache with
  | none => c
  | some oid =>
    if oid = "" then c
    else { c with attachmentCache := mapDelete c.attachmentCache oid }

/-- `set(searchId, query, results)` at time `now`: evict the oldest entry
when already at capacity, then insert. -/
def ResultCache.set (c : ResultCache) (now : Nat) (searchId query : String)
    (results : List CopilotRetrievalHit) : ResultCache :=
  let c1 := if c.searchCache.length ≥ c.maxEntries
            then c.evictOldestSearch else c
  let entry : CachedSearch :=
    { searchId := searchId, query := query, timestamp := now,
      results := results }
  { c1 with searchCache := mapSet c1.searchCache searchId entry }

/-- `get(searchId)` at time `now`: lazy expiry — an entry older than
`ttlMs` is removed and reported as a miss.  Returns the result together
with the updated cache state. -/
def ResultCache.get (c : ResultCache) (now : Nat) (searchId : String) :
    Option CachedSearch × ResultCache :=
  match mapGet c.searchCache searchId with
  | none => (none, c)
  | some cached =>
    if now - cached.timestamp > c.ttlMs then
      (none, { c with searchCache := mapDelete c.searchCache searchId })
    else
      (some cached, c)

/-- `setAttachment(messageId, attachmentId, attachment)` at time `now`;
returns the cache id together with the new state. -/
def ResultCache.setAttachment (c : ResultCache) (now : Nat)
    (messageId attachmentId : String) (attachment : AttachmentData) :
    String × ResultCache :=
  let c1 := if c.attachmentCache.length ≥ c.maxEntries
            then c.evictOldestAttachment else c
  let cacheId := generateAttachmentId messageId attachmentId
  let entry : CachedAttachment :=
    { attachmentId := cacheId, messageId := messageId,
      timestamp := now, attachment := attachment }
  (cacheId,
   { c1 with attachmentCache := mapSet c1.attachmentCache cacheId entry })

/-- `getAttachment(cacheId)` at time `now` (lazy expiry as in `get`). -/
def ResultCache.getAttachment (c : ResultCache) (now : Nat)
    (cacheId : String) : Option AttachmentData × ResultCache :=
  match mapGet c.attachmentCache cacheId with
  | none => (none, c)
  | some cached =>
    if now - cached.timestamp > c.ttlMs then
      (none,
       { c with attachmentCache := mapDelete c.attachmentCache cacheId })
    else
      (some cached.attachment, c)

/-- `listAttachmentIds()`: all keys of the attachment map, unfiltered. -/
def ResultCache.listAttachmentIds (c : ResultCache) : List String :=
  c.attachmentCache.map Prod.fst

/-- `listSearchIds()`: all keys of the search map, unfiltered. -/
def ResultCache.listSearchIds (c : ResultCache) : List String :=
  c.searchCache.map Prod.fst

/-- `getResult(searchId, resultIndex)`: `get` plus a bounds check.  The
JS index is a number that may be negative, hence `Int`. -/
def ResultCache.getResult (c : ResultCache) (now : Nat) (searchId : String)
    (resultIndex : Int) : Option CopilotRetrievalHit × ResultCache :=
  let r := c.get now searchId
  match r.1 with
  | none => (none, r.2)
  | some cached =>
    if resultIndex < 0 ∨ (cached.results.length : Int) ≤ resultIndex then
      (none, r.2)
    else
      (cached.results.get? resultIndex.toNat, r.2)

/-- `getSearchResults(searchId)`. -/
def ResultCache.getSearchResults (c : ResultCache) (now : Nat)
    (searchId : String) : Option (List CopilotRetrievalHit) × ResultCache :=
  let r := c.get now searchId
  (r.1.map (fun cached => cached.results), r.2)

/-- `cleanupExpired()` at time `now` (the periodic sweep body). -/
def ResultCache.cleanupExpired (c : ResultCache) (now : Nat) : ResultCache :=
  { c with
    searchCache :=
      c.searchCache.filter (fun p => !(now - p.2.timestamp > c.ttlMs)),
    attachmentCache :=
      c.attachmentCache.filter (fun p => !(now - p.2.timestamp > c.ttlMs)) }

/-! ## Excerpt construction (SearchContent.createBriefExcerpt, part_008) -/

/-- `lastIndexOf(' ')` on a character list: index of the last space,
`-1` when there is none. -/
def lastSpaceIndex : List Char → Int
  | [] => -1
  | c :: cs =>
    let r := lastSpaceIndex cs
    if r ≥ 0 then 1 + r
    else if c = ' ' then 0 else -1

/-- The ellipsis marker appended on truncation. -/
def ellipsisChars : List Char := ['.', '.', '.']

/-- The JS `reduce((prev, curr) => curr.relevanceScore > prev.relevanceScore
? curr : prev)` pass: keeps the first extract attaining the maximum score. -/
def topExtract (prev : Extract) : List Extract → Extract
  | [] => prev
  | curr :: rest =>
    topExtract (if curr.relevanceScore > prev.relevanceScore then curr
                else prev) rest

/-- The extract `createBriefExcerpt` picks (none when there are none). -/
def chosenExtract : List Extract → Option Extract
  | [] => none
  | e :: rest => some (topExtract e rest)

/-- `createBriefExcerpt(extracts)` on character lists: empty on no
extracts; otherwise the top extract's text, truncated to 150 characters at
the last-space boundary with an ellipsis appended. -/
def createBriefExcerptChars (extracts : List Extract) : List Char :=
  match extracts with
  | [] => []
  | e :: rest =>
    let text := (topExtract e rest).text.data
    if text.length ≤ 150 then text
    else
      let truncated := text.take 150
      let lastSpace := lastSpaceIndex truncated
      if lastSpace > 0 then truncated.take lastSpace.toNat ++ ellipsisChars
      else truncated ++ ellipsisChars

/-- `createBriefExcerpt` as a `String`. -/
def createBriefExcerpt (extracts : List Extract) : String :=
  String.mk (createBriefExcerptChars extracts)

/-! ## Opaque-reference parsing (the two regexes of the resource handler) -/

/-- Match a literal marker at the front of a character list and return the
remainder. -/
def dropMarker : List Char → List Char → Option (List Char)
  | [], cs => some cs
  | _ :: _, [] => none
  | m :: ms, c :: cs => if c = m then dropMarker ms cs else none

/-- Split at the first slash: the regex fragment `([^/]+)\/` can only end
the capture at the first `/`. -/
def splitAtSlash : List Char → Option (List Char × List Char)
  | [] => none
  | c :: cs =>
    if c = '/' then some ([], cs)
    else (splitAtSlash cs).map (fun p => (c :: p.1, p.2))

/-- The regex `^copilot:\/\/search-([^\/]+)\/result-(\d+)$` plus
`parseInt(_, 10)`: yields the captured handle and the numeric index. -/
def parseCopilotRef (uri : String) : Option (String × Nat) :=
  match dropMarker "copilot://search-".data uri.data with
  | none => none
  | some rest =>
    match splitAtSlash rest with
    | none => none
    | some (h, t) =>
      if h = [] then none
      else
        match dropMarker "result-".data t with
        | none => none
        | some d =>
          if d ≠ [] ∧ d.all Char.isDigit then
            some (String.mk h, digitsToNat d)
          else none

/-- JS line terminators, which `.` does not match. -/
def isJsLineTerm (c : Char) : Bool :=
  c == Char.ofNat 10 || c == Char.ofNat 13 ||
  c == Char.ofNat 8232 || c == Char.ofNat 8233

/-- The regex `^attachment:\/\/(.+)$`: a nonempty remainder free of line
terminators. -/
def parseAttachmentRef (uri : String) : Option String :=
  match dropMarker "attachment://".data uri.data with
  | none => none
  | some rest =>
    if rest ≠ [] ∧ rest.all (fun c => !isJsLineTerm c) then
      some (String.mk rest)
    else none

/-! ## Drill-down resolver (ReadResourceRequestSchema handler, part_007) -/

/-- The full-detail view the handler builds for a search sub-item. -/
structure FullView where
  url : String
  resourceType : String
  sensitivityLabel : Option String
  metadata : Option String
  extracts : List Extract
  totalExtracts : Nat
deriving Repr, DecidableEq

/-- Shape a cached hit into its full view (all extracts with their
individual relevance scores, full metadata, sensitivity label). -/
def fullView (hit : CopilotRetrievalHit) : FullView :=
  { url := hit.webUrl, resourceType := hit.resourceType,
    sensitivityLabel := hit.sensitivityLabel,
    metadata := hit.resourceMetadata,
    extracts := hit.extracts.map
      (fun e => { text := e.text, relevanceScore := e.relevanceScore }),
    totalExtracts := hit.extracts.length }

/-- The three error shapes the resolver can throw. -/
inductive ResolveError where
  | invalidUri (uri : String)
  | resourceNotFound (uri : String)
  | attachmentNotFound (uri : String)
deriving Repr, DecidableEq

/-- The message each thrown `Error` carries. -/
def ResolveError.message : ResolveError → String
  | .invalidUri uri => "Invalid resource URI: " ++ uri
  | .resourceNotFound uri =>
      "Resource not found: " ++ uri ++ " (may have expired from cache)"
  | .attachmentNotFound uri =>
      "Attachment not found: " ++ uri ++ " (may have expired from cache)"

/-- JS `a || b` on strings (the empty string is falsy). -/
def jsOrStr (s d : String) : String :=
  if s = "" then d else s

/-- Successful resolver payloads. -/
inductive ResourceContent where
  | searchResult (view : FullView)
  | attachmentContent (contentType : String) (contentBytes : String)
deriving Repr, DecidableEq

/-- The ReadResource handler: try the copilot regex, then the attachment
regex, then fail with `invalidUri`.  A matched reference that misses the
cache fails with the corresponding not-found error. -/
def resolveRef (c : ResultCache) (now : Nat) (uri : String) :
    Except ResolveError ResourceContent × ResultCache :=
  match parseCopilotRef uri with
  | some p =>
    let r := c.getResult now p.1 (Int.ofNat p.2)
    match r.1 with
    | none => (.error (.resourceNotFound uri), r.2)
    | some hit => (.ok (.searchResult (fullView hit)), r.2)
  | none =>
    match parseAttachmentRef uri with
    | some attachmentId =>
      let r := c.getAttachment now attachmentId
      match r.1 with
      | none => (.error (.attachmentNotFound uri), r.2)
      | some att =>
        (.ok (.attachmentContent
          (jsOrStr att.contentType "application/octet-stream")
          att.contentBytes), r.2)
    | none => (.error (.invalidUri uri), c)

/-! ## Resource listing (ListResourcesRequestSchema handler, part_007) -/

/-- One advertised resource descriptor. -/
structure ResourceDescriptor where
  uri : String
  name : String
  description : String
  mimeType : String
deriving Repr, DecidableEq

/-- Descriptors for one live search entry (one per stored result index). -/
def searchDescriptors (sid : String) (results : List CopilotRetrievalHit) :
    List ResourceDescriptor :=
  results.enum.map (fun p =>
    { uri := "copilot://search-" ++ sid ++ "/result-" ++ natDecimalStr p.1,
      name := "Search result " ++ natDecimalStr (p.1 + 1) ++ " from " ++ sid,
      description := "Full text extracts for " ++ p.2.webUrl,
      mimeType := "application/json" })

/-- The search half of the listing loop: each snapshotted id is pushed
through `getSearchResults` (which applies the liveness check and deletes
expired entries), and only hits contribute descriptors. -/
def collectSearchResources :
    ResultCache → Nat → List String → List ResourceDescriptor × ResultCache
  | c, _, [] => ([], c)
  | c, now, sid :: rest =>
    let r := c.getSearchResults now sid
    let tail := collectSearchResources r.2 now rest
    match r.1 with
    | some results => (searchDescriptors sid results ++ tail.1, tail.2)
    | none => tail

/-- Descriptor for one live attachment.  `fmtBytes` stands for the
floating-point `formatBytes` helper, external to this embedding. -/
def attachmentDescriptor (fmtBytes : Nat → String) (aid : String)
    (att : AttachmentData) : ResourceDescriptor :=
  { uri := "attachment://" ++ aid,
    name := att.name,
    description := "Email attachment: " ++ att.name ++ " (" ++
      att.contentType ++ ", " ++ fmtBytes att.size ++ ")",
    mimeType := jsOrStr att.contentType "application/octet-stream" }

/-- The attachment half of the listing loop. -/
def collectAttachmentResources (fmtBytes : Nat → String) :
    ResultCache → Nat → List String → List ResourceDescriptor × ResultCache
  | c, _, [] => ([], c)
  | c, now, aid :: rest =>
    let r := c.getAttachment now aid
    let tail := collectAttachmentResources fmtBytes r.2 now rest
    match r.1 with
    | some att => (attachmentDescriptor fmtBytes aid att :: tail.1, tail.2)
    | none => tail

/-- The full ListResources handler: snapshot the search ids, walk them,
then snapshot the attachment ids and walk those. -/
def listResources (fmtBytes : Nat → String) (c : ResultCache) (now : Nat) :
    List ResourceDescriptor × ResultCache :=
  let s := collectSearchResources c now c.listSearchIds
  let a := collectAttachmentResources fmtBytes s.2 now s.2.listAttachmentIds
  (s.1 ++ a.1, a.2)

/-! ## Email summarization (ResultProcessor) -/

/-- A Graph message as the processor reads it; absent JSON fields are
`none`. -/
structure EmailMessage where
  id : String
  receivedDateTime : String
  subject : Option String
  fromName : Option String
  fromAddress : Option String
  bodyPreview : Option String
  bodyContent : Option String
  hasAttachments : Option Bool
  importance : Option String
deriving Repr, DecidableEq

/-- The token-efficient summary shape.  `sender` embeds the JS field
named `from` (a Lean keyword). -/
structure EmailSummary where
  messageId : String
  receivedDateTime : String
  subject : String
  sender : String
  snippet : String
  hasAttachments : Bool
  importance : String
deriving Repr, DecidableEq

/-- JS `a || b` through an optional string (both `undefined` and the empty
string fall through). -/
def jsOrOptStr (s : Option String) (d : String) : String :=
  match s with
  | some v => if v = "" then d else v
  | none => d

/-- JS truthiness of an optional string. -/
def isTruthyStr : Option String → Bool
  | some s => s ≠ ""
  | none => false

/-- Scan to just past the first `>` (the end of a `<[^>]*>` match). -/
def dropToGt : List Char → Option (List Char)
  | [] => none
  | c :: cs => if c = '>' then some cs else dropToGt cs

theorem dropToGt_length {cs rest : List Char} (h : dropToGt cs = some rest) :
    rest.length < cs.length := by
  induction cs with
  | nil => simp [dropToGt] at h
  | cons c cs ih =>
    by_cases hc : c = '>'
    · simp [dropToGt, hc] at h
      simp [← h]
    · simp [dropToGt, hc] at h
      exact Nat.lt_succ_of_lt (ih h)

/-- The global replace of `/<[^>]*>/g` by the empty string: a `<` with a
later `>` removes through that `>`; a `<` with no closing `>` matches
nothing and is kept. -/
def stripTags : List Char → List Char
  | [] => []
  | c :: cs =>
    if c = '<' then
      match hm : dropToGt cs with
      | some rest => stripTags rest
      | none => c :: stripTags cs
    else c :: stripTags cs
termination_by cs => cs.length
decreasing_by
  · exact Nat.lt_succ_of_lt (dropToGt_length hm)
  · simp
  · simp

/-- JS `trim()` (whitespace from both ends). -/
def trimChars (cs : List Char) : List Char :=
  ((cs.dropWhile Char.isWhitespace).reverse.dropWhile Char.isWhitespace).reverse

theorem dropWhile_length_le (p : Char → Bool) (l : List Char) :
    (l.dropWhile p).length ≤ l.length := by
  induction l with
  | nil => simp
  | cons c cs ih =>
    by_cases hc : p c
    · simp only [List.dropWhile_cons, hc, if_true]
      exact Nat.le_succ_of_le ih
    · simp [List.dropWhile_cons, hc]

/-- The global replace of `/\s+/g` by a single space. -/
def collapseWs : List Char → List Char
  | [] => []
  | c :: cs =>
    if Char.isWhitespace c then
      ' ' :: collapseWs (cs.dropWhile Char.isWhitespace)
    else c :: collapseWs cs
termination_by cs => cs.length
decreasing_by
  · exact Nat.lt_succ_of_le (dropWhile_length_le _ cs)
  · simp

/-- `ResultProcessor.truncateText`: collapse whitespace, trim, and cut at
the last space boundary within `maxLength`, appending an ellipsis. -/
def truncateText (text : List Char) (maxLength : Nat) : List Char :=
  if text = [] then []
  else
    let t := trimChars (collapseWs text)
    if t.length ≤ maxLength then t
    else
      let truncated := t.take maxLength
      let lastSpace := lastSpaceIndex truncated
      if lastSpace > 0 then truncated.take lastSpace.toNat ++ ellipsisChars
      else truncated ++ ellipsisChars

/-- `ResultProcessor.createSnippet`. -/
def createSnippet (m : EmailMessage) : String :=
  if isTruthyStr m.bodyPreview then
    String.mk (truncateText (m.bodyPreview.getD "").data 100)
  else if isTruthyStr m.bodyContent then
    String.mk
      (truncateText (trimChars (stripTags (m.bodyContent.getD "").data)) 100)
  else ""

/-- `ResultProcessor.processEmailToSummary`. -/
def processEmailToSummary (m : EmailMessage) : EmailSummary :=
  { messageId := m.id,
    receivedDateTime := m.receivedDateTime,
    subject := jsOrOptStr m.subject "(No subject)",
    sender := jsOrOptStr m.fromName (jsOrOptStr m.fromAddress "Unknown"),
    snippet := createSnippet m,
    hasAttachments := m.hasAttachments.getD false,
    importance := jsOrOptStr m.importance "normal" }

/-- `ResultProcessor.processEmails`. -/
def processEmails (messages : List EmailMessage) : List EmailSummary :=
  messages.map processEmailToSummary

/-- Stable insertion for the descending-by-date comparator.  `dv` stands
for `new Date(s).getTime()`, the engine's date parser, external to this
embedding. -/
def insertByDate (dv : String → Int) (e : EmailSummary) :
    List EmailSummary → List EmailSummary
  | [] => [e]
  | x :: xs =>
    if dv e.receivedDateTime > dv x.receivedDateTime then e :: x :: xs
    else x :: insertByDate dv e xs

/-- `ResultProcessor.sortByDate`: JS `Array.sort` is stable; a stable sort
for the comparator `dateB - dateA` is insertion sort keeping ties in input
order. -/
def sortByDate (dv : String → Int) (emails : List EmailSummary) :
    List EmailSummary :=
  emails.foldr (insertByDate dv) []

/-- `ResultProcessor.limitResults`. -/
def limitResults (emails : List EmailSummary) (maxCount : Nat) :
    List EmailSummary :=
  emails.take maxCount

/-- `ResultProcessor.getLatestDate`. -/
def getLatestDate (dv : String → Int) (emails : List EmailSummary) :
    Option String :=
  if emails = [] then none
  else ((sortByDate dv emails).get? 0).map (fun e => e.receivedDateTime)

/-! ## Batch dispatcher (GraphClient.executeBatch, part_018) -/

/-- A logical batch request. -/
structure GraphBatchRequest where
  id : String
  method : String
  url : String
deriving Repr, DecidableEq

/-- The response body shapes the search path reads: a `value` list of
messages, an error object with a message, or anything else. -/
inductive BatchBody where
  | emptyBody
  | errorBody (message : String)
  | valueBody (value : List EmailMessage)
deriving Repr, DecidableEq

/-- One per-item batch response. -/
structure GraphBatchResponse where
  id : String
  status : Nat
  body : BatchBody
deriving Repr, DecidableEq

/-- Structural core of `chunkArray`: the fuel bounds the number of loop
iterations (each iteration consumes at least one element, so the list's
length is enough fuel). -/
def chunkArrayAux {α : Type} : Nat → List α → Nat → List (List α)
  | 0, _, _ => []
  | _ + 1, [], _ => []
  | fuel + 1, x :: xs, n =>
    ((x :: xs).take (n + 1)) :: chunkArrayAux fuel (xs.drop n) n

/-- `chunkArray(array, size)`.  The source only calls it with `size = 20`;
a zero size (on which the JS loop would not advance) is mapped to `[]`. -/
def chunkArray {α : Type} (array : List α) (size : Nat) :
    List (List α) :=
  match size with
  | 0 => []
  | n + 1 => chunkArrayAux array.length array n

/-- The synthesized failure outcome for one request of a failed chunk. -/
def synthFailure (errMsg : String) (req : GraphBatchRequest) :
    GraphBatchResponse :=
  { id := req.id, status := 500,
    body := .errorBody ("Batch request failed: " ++ errMsg) }

/-- `executeBatch(requests)`: short-circuit on the empty list, otherwise
process the 20-chunks sequentially; a chunk whose upstream POST throws
(`upstream` returns `.error`) contributes one synthesized status-500
response per request of that chunk.  The call itself always returns. -/
def executeBatch
    (upstream : List GraphBatchRequest → Except String (List GraphBatchResponse))
    (requests : List GraphBatchRequest) : List GraphBatchResponse :=
  if requests = [] then []
  else
    (chunkArray requests 20).foldl (fun acc chunk =>
      match upstream chunk with
      | .ok responses => acc ++ responses
      | .error e => acc ++ chunk.map (synthFailure e)) []

/-! ## Batch entity search (SearchByEntities.execute) -/

/-- `escapeKql`: prefix each of `\\ : " ( )` with a backslash. -/
def escapeKql (text : String) : String :=
  String.mk (text.data.foldr (fun ch acc =>
    if ch = '\\' ∨ ch = ':' ∨ ch = '"' ∨ ch = '(' ∨ ch = ')' then
      '\\' :: ch :: acc
    else ch :: acc) [])

/-- `buildSearchUrl(entity, keywords, dateFrom, dateTo, maxResults)`. -/
def buildSearchUrl (entity : String) (keywords : List String)
    (dateFrom dateTo : Option String) (maxResults : Nat) : String :=
  let base := "(from:" ++ escapeKql entity ++ " OR subject:" ++
    escapeKql entity ++ ")"
  let parts1 :=
    if keywords.length > 0 then
      [base,
       "(" ++ String.intercalate " OR " (keywords.map escapeKql) ++ ")"]
    else [base]
  let parts2 :=
    match dateFrom with
    | some d => parts1 ++ ["received>=" ++ d]
    | none => parts1
  let parts3 :=
    match dateTo with
    | some d => parts2 ++ ["received<=" ++ d]
    | none => parts2
  let kqlQuery := String.intercalate " AND " parts3
  "/me/messages?$search=\"" ++ kqlQuery ++ "\"&$top=" ++
    natDecimalStr maxResults ++
    "&$select=id,subject,from,receivedDateTime,bodyPreview,hasAttachments,importance"

/-- One per-entity outcome slot of the batch search result map. -/
structure EntityOutcome where
  matchCount : Nat
  latestDate : Option String
  emails : List EmailSummary
  error : Option String
deriving Repr, DecidableEq

/-- `getErrorMessage(body)`. -/
def getErrorMessage : BatchBody → String
  | .errorBody m => m
  | _ => "Unknown error"

/-- `(response.body as any)?.value || []`. -/
def bodyValue : BatchBody → List EmailMessage
  | .valueBody v => v
  | _ => []

/-- The per-entity branch of the result loop. -/
def buildOutcome (dv : String → Int) (maxResultsPerEntity : Nat)
    (resp : Option GraphBatchResponse) : EntityOutcome :=
  match resp with
  | none =>
    { matchCount := 0, latestDate := none, emails := [],
      error := some "No response from server" }
  | some response =>
    if response.status ≠ 200 then
      { matchCount := 0, latestDate := none, emails := [],
        error := some ("Error " ++ natDecimalStr response.status ++ ": " ++
          getErrorMessage response.body) }
    else
      let messages := bodyValue response.body
      let sortedEmails := sortByDate dv (processEmails messages)
      { matchCount := messages.length,
        latestDate := getLatestDate dv sortedEmails,
        emails := limitResults sortedEmails maxResultsPerEntity,
        error := none }

/-- JS plain-object property assignment `obj[key] = value` restricted to
own properties: the key `"__proto__"` hits the inherited prototype setter
of a plain object and creates no own property; any other existing key is
updated in place and a fresh key is appended (string-key insertion
order). -/
def objSet {α : Type} (m : List (String × α)) (k : String) (v : α) :
    List (String × α) :=
  if k = "__proto__" then m else mapSet m k v

/-- Canonical array-index string: all digits, no leading zero except
`"0"` itself, and numeric value below `2^32 - 1`.  Such keys enumerate
first, in ascending numeric order, on a JS object. -/
def isArrayIndexStr (s : String) : Bool :=
  s.data ≠ [] && s.data.all Char.isDigit &&
  (s.data.length = 1 || s.data.head? ≠ some '0') &&
  digitsToNat s.data < 4294967295

/-- Insert an array-index key into an ascending-by-value key list. -/
def insertNumAsc (k : String) : List String → List String
  | [] => [k]
  | x :: xs =>
    if digitsToNat k.data < digitsToNat x.data then k :: x :: xs
    else x :: insertNumAsc k xs

/-- Own-property enumeration order of a JS plain object (what
`Object.keys` and serialization observe): array-index keys in ascending
numeric order first, then string keys in insertion order. -/
def objKeys {α : Type} (m : List (String × α)) : List String :=
  ((m.map Prod.fst).filter isArrayIndexStr).foldr insertNumAsc []
    ++ (m.map Prod.fst).filter (fun k => !isArrayIndexStr k)

/-- Batch requests of `SearchByEntities.execute`: one per entity, the id
being the entity's index rendered in decimal. -/
def entityBatchRequests (entities : List String)
    (keywords : List String) (dateFrom dateTo : Option String)
    (maxResultsPerEntity : Nat) : List GraphBatchRequest :=
  entities.enum.map (fun p =>
    { id := natDecimalStr p.1, method := "GET",
      url := buildSearchUrl p.2 keywords dateFrom dateTo
        maxResultsPerEntity })

/-- `SearchByEntities.execute`: one batch request per entity, then one
result-map slot per entity.  The result map is a plain JS object keyed
by the entity string (`results[entity] = ...`), embedded with `objSet`;
its observable key enumeration is `objKeys`. -/
def searchByEntitiesExecute
    (upstream : List GraphBatchRequest → Except String (List GraphBatchResponse))
    (dv : String → Int) (entities : List String) (keywords : List String)
    (dateFrom dateTo : Option String) (maxResultsPerEntity : Nat) :
    List (String × EntityOutcome) :=
  let batchRequests :=
    entityBatchRequests entities keywords dateFrom dateTo
      maxResultsPerEntity
  let batchResult := executeBatch upstream batchRequests
  entities.enum.foldl (fun results p =>
    let resp := batchResult.find? (fun r => r.id == natDecimalStr p.1)
    objSet results p.2 (buildOutcome dv maxResultsPerEntity resp)) []

/-! ## Association-map lemmas -/

theorem mapGet_eq_none_iff {α : Type} (m : List (String × α)) (k : String) :
    mapGet m k = none ↔ k ∉ m.map Prod.fst := by
  simp only [mapGet, Option.map_eq_none', List.find?_eq_none, List.mem_map]
  constructor
  · rintro h ⟨p, hp, hk⟩
    exact h p hp (by simp [hk])
  · intro h p hp hbeq
    exact h ⟨p, hp, by simpa using hbeq⟩

theorem mapGet_isSome_iff {α : Type} (m : List (String × α)) (k : String) :
    (mapGet m k).isSome ↔ k ∈ m.map Prod.fst := by
  rcases ho : mapGet m k with _ | v
  · simp only [Option.isSome_none, Bool.false_eq_true, false_iff]
    exact (mapGet_eq_none_iff m k).mp ho
  · simp only [Option.isSome_some, true_iff]
    by_contra hk
    rw [(mapGet_eq_none_iff m k).mpr hk] at ho
    exact Option.noConfusion ho

theorem mapSet_of_not_mem {α : Type} {m : List (String × α)} {k : String}
    (v : α) (h : k ∉ m.map Prod.fst) : mapSet m k v = m ++ [(k, v)] := by
  have hfind : m.find? (fun p => p.1 == k) = none := by
    rw [List.find?_eq_none]
    intro p hp
    simp only [beq_iff_eq]
    intro hk
    exact h (List.mem_map.mpr ⟨p, hp, hk⟩)
  simp [mapSet, hfind]

theorem mapGet_append {α : Type} (m m' : List (String × α)) (k : String)
    (h : mapGet m k = none) : mapGet (m ++ m') k = mapGet m' k := by
  induction m with
  | nil => simp
  | cons p t ih =>
    by_cases hp : p.1 == k
    · simp [mapGet, List.find?_cons, hp] at h
    · simp only [mapGet, List.cons_append, List.find?_cons, hp] at *
      exact ih h

theorem find_isSome_iff_mem {α : Type} (m : List (String × α)) (k : String) :
    (m.find? (fun p => p.1 == k)).isSome ↔ k ∈ m.map Prod.fst := by
  induction m with
  | nil => simp
  | cons p t ih =>
    by_cases hp : p.1 == k
    · have : p.1 = k := by simpa using hp
      simp [List.find?_cons, hp, this]
    · have : ¬p.1 = k := by simpa using hp
      simp [List.find?_cons, hp, ih, Ne.symm this]

theorem replace_get_self {α : Type} (m : List (String × α)) (k : String)
    (v : α) (hmem : k ∈ m.map Prod.fst) :
    mapGet (m.map (fun p => if p.1 == k then (k, v) else p)) k = some v := by
  induction m with
  | nil => simp at hmem
  | cons p t ih =>
    rw [List.map_cons]
    by_cases hp : p.1 = k
    · have hf : (if p.1 == k then (k, v) else p) = (k, v) := by simp [hp]
      rw [hf]
      show Option.map Prod.snd
        (List.find? (fun p => p.1 == k) ((k, v) :: _)) = some v
      rw [List.find?_cons]
      simp
    · have hf : (if p.1 == k then (k, v) else p) = p := by simp [hp]
      rw [hf]
      have hmem' : k ∈ t.map Prod.fst := by
        rcases List.mem_map.mp hmem with ⟨q, hq, hk⟩
        rcases List.mem_cons.mp hq with hq | hq
        · exact absurd (hq ▸ hk) hp
        · exact List.mem_map.mpr ⟨q, hq, hk⟩
      show Option.map Prod.snd (List.find? (fun p => p.1 == k) (p :: _)) =
        some v
      rw [List.find?_cons]
      have hb : (p.1 == k) = false := by simp [hp]
      rw [hb]
      exact ih hmem'

theorem replace_get_ne {α : Type} (m : List (String × α)) (k k' : String)
    (v : α) (h : k' ≠ k) :
    mapGet (m.map (fun p => if p.1 == k then (k, v) else p)) k' =
      mapGet m k' := by
  induction m with
  | nil => rfl
  | cons p t ih =>
    rw [List.map_cons]
    show Option.map Prod.snd (List.find? (fun p => p.1 == k') (_ :: _)) =
      Option.map Prod.snd (List.find? (fun p => p.1 == k') (p :: t))
    rw [List.find?_cons, List.find?_cons]
    by_cases hp : p.1 = k
    · have hf : (if p.1 == k then (k, v) else p) = (k, v) := by simp [hp]
      rw [hf]
      have h1 : ((k, v).1 == k') = false := by simp [Ne.symm h]
      have h2 : (p.1 == k') = false := by simp [hp, Ne.symm h]
      rw [h1, h2]
      exact ih
    · have hf : (if p.1 == k then (k, v) else p) = p := by simp [hp]
      rw [hf]
      by_cases hpk : p.1 = k'
      · have hb : (p.1 == k') = true := by simp [hpk]
        rw [hb]
      · have hb : (p.1 == k') = false := by simp [hpk]
        rw [hb]
        exact ih

theorem mapGet_mapSet_self {α : Type} (m : List (String × α)) (k : String)
    (v : α) : mapGet (mapSet m k v) k = some v := by
  by_cases hmem : k ∈ m.map Prod.fst
  · rw [mapSet, if_pos ((find_isSome_iff_mem m k).mpr hmem)]
    exact replace_get_self m k v hmem
  · rw [mapSet_of_not_mem v hmem,
      mapGet_append _ _ _ ((mapGet_eq_none_iff m k).mpr hmem)]
    simp [mapGet, List.find?_cons]

theorem mapGet_mapSet_ne {α : Type} (m : List (String × α)) (k k' : String)
    (v : α) (h : k' ≠ k) : mapGet (mapSet m k v) k' = mapGet m k' := by
  rw [mapSet]
  by_cases hfind : (m.find? (fun p => p.1 == k)).isSome
  · rw [if_pos hfind]
    exact replace_get_ne m k k' v h
  · rw [if_neg hfind]
    rcases hg : mapGet m k' with _ | v'
    · rw [mapGet_append _ _ _ hg]
      have : ¬((k : String) == k') = true := by simp [Ne.symm h]
      simp [mapGet, List.find?_cons, this]
    · simp only [mapGet] at hg ⊢
      rcases Option.map_eq_some'.mp hg with ⟨p, hp, hv⟩
      rw [List.find?_append, hp]
      simp [hv]

theorem mapGet_mapDelete_self {α : Type} (m : List (String × α))
    (k : String) : mapGet (mapDelete m k) k = none := by
  rw [mapGet_eq_none_iff]
  intro hk
  rcases List.mem_map.mp hk with ⟨p, hp, hpk⟩
  have := List.of_mem_filter hp
  simp [hpk] at this

theorem mapGet_mapDelete_ne {α : Type} (m : List (String × α))
    (k k' : String) (h : k' ≠ k) :
    mapGet (mapDelete m k) k' = mapGet m k' := by
  induction m with
  | nil => rfl
  | cons p t ih =>
    by_cases hp : p.1 == k
    · have hpk : ¬(p.1 == k') = true := by
        have : p.1 = k := by simpa using hp
        simp [this, Ne.symm h]
      simp only [mapDelete, List.filter_cons, hp] at *
      simpa [mapGet, List.find?_cons, hpk] using ih
    · simp only [mapDelete, List.filter_cons, hp] at *
      simp only [Bool.not_eq_eq_eq_not, Bool.not_true, Bool.not_false,
        if_true, if_false]
      by_cases hpk : p.1 == k'
      · simp [mapGet, List.find?_cons, hpk]
      · simpa [mapGet, List.find?_cons, hpk] using ih

theorem mapDelete_of_not_mem {α : Type} {m : List (String × α)} {k : String}
    (h : k ∉ m.map Prod.fst) : mapDelete m k = m := by
  induction m with
  | nil => rfl
  | cons p t ih =>
    simp only [List.map_cons, List.mem_cons, not_or] at h
    have hp : ¬(p.1 == k) = true := by simp [Ne.symm h.1]
    simp only [mapDelete, List.filter_cons, hp] at *
    simp [ih h.2]

theorem mapDelete_cons_self {α : Type} (t : List (String × α)) (k : String)
    (v : α) (h : k ∉ t.map Prod.fst) : mapDelete ((k, v) :: t) k = t := by
  simp only [mapDelete, List.filter_cons]
  simp only [beq_self_eq_true, Bool.not_true, if_false]
  exact mapDelete_of_not_mem h

theorem length_mapSet_mem {α : Type} (m : List (String × α)) (k : String)
    (v : α) (h : k ∈ m.map Prod.fst) :
    (mapSet m k v).length = m.length := by
  rw [mapSet, if_pos ((find_isSome_iff_mem m k).mpr h)]
  simp

theorem length_mapDelete_mem {α : Type} (m : List (String × α)) (k : String)
    (hnd : (m.map Prod.fst).Nodup) (h : k ∈ m.map Prod.fst) :
    (mapDelete m k).length = m.length - 1 := by
  induction m with
  | nil => simp at h
  | cons p t ih =>
    simp only [List.map_cons, List.nodup_cons] at hnd
    rcases List.mem_map.mp h with ⟨q, hq, hqk⟩
    rcases List.mem_cons.mp hq with hq | hq
    · have hpk : p.1 = k := by rw [← hq, hqk]
      have hkt : k ∉ t.map Prod.fst := hpk ▸ hnd.1
      have : mapDelete (p :: t) k = t := by
        have := mapDelete_cons_self t k p.2 hkt
        simpa [mapDelete, ← hpk] using this
      simp [this]
    · have hk : k ∈ t.map Prod.fst := List.mem_map.mpr ⟨q, hq, hqk⟩
      have hp : ¬(p.1 == k) = true := by
        simp only [beq_iff_eq]
        intro hpk
        exact hnd.1 (hpk ▸ hk)
      have ht : 1 ≤ t.length := by
        rcases t with _ | _
        · simp at hk
        · simp
      simp only [mapDelete, List.filter_cons, hp] at *
      simp only [Bool.not_false, if_true, List.length_cons]
      rw [ih hnd.2 hk]
      omega

/-! ## Decimal-rendering lemmas -/

theorem digitsToNat_concat (l : List Char) (c : Char) :
    digitsToNat (l ++ [c]) = digitsToNat l * 10 + (c.toNat - 48) := by
  simp [digitsToNat, List.foldl_append]

theorem digitChar_toNat {d : Nat} (h : d < 10) :
    (digitChar d).toNat = 48 + d := by
  interval_cases d <;> decide

theorem digitChar_isDigit {d : Nat} (h : d < 10) :
    (digitChar d).isDigit = true := by
  interval_cases d <;> decide

theorem natDecimalAux_correct :
    ∀ fuel n, n < fuel → digitsToNat (natDecimalAux fuel n) = n := by
  intro fuel
  induction fuel with
  | zero => intro n hn; omega
  | succ f ih =>
    intro n hn
    rw [natDecimalAux]
    by_cases h10 : n < 10
    · rw [if_pos h10]
      show digitsToNat ([] ++ [digitChar n]) = n
      rw [digitsToNat_concat, digitChar_toNat h10]
      simp [digitsToNat]
    · rw [if_neg h10]
      rw [digitsToNat_concat, digitChar_toNat (Nat.mod_lt n (by omega))]
      have hdiv : n / 10 < f := by
        have h1 : n / 10 < n := Nat.div_lt_self (by omega) (by omega)
        omega
      rw [ih (n / 10) hdiv]
      omega

theorem natDecimal_correct (n : Nat) : digitsToNat (natDecimal n) = n :=
  natDecimalAux_correct (n + 1) n (Nat.lt_succ_self n)

theorem natDecimal_inj {a b : Nat} (h : natDecimal a = natDecimal b) :
    a = b := by
  have := natDecimal_correct a
  rw [h, natDecimal_correct b] at this
  omega

theorem natDecimalAux_digits :
    ∀ fuel n c, c ∈ natDecimalAux fuel n → c.isDigit = true := by
  intro fuel
  induction fuel with
  | zero => intro n c hc; simp [natDecimalAux] at hc
  | succ f ih =>
    intro n c hc
    rw [natDecimalAux] at hc
    by_cases h10 : n < 10
    · rw [if_pos h10] at hc
      simp only [List.mem_singleton] at hc
      exact hc ▸ digitChar_isDigit h10
    · rw [if_neg h10] at hc
      rcases List.mem_append.mp hc with hc | hc
      · exact ih (n / 10) c hc
      · simp only [List.mem_singleton] at hc
        exact hc ▸ digitChar_isDigit (Nat.mod_lt n (by omega))

theorem natDecimal_digits (n : Nat) {c : Char} (hc : c ∈ natDecimal n) :
    c.isDigit = true :=
  natDecimalAux_digits (n + 1) n c hc

theorem isDigit_ne_of_lt {c d : Char} (hc : c.isDigit = true)
    (hd : d.isDigit = false) : c ≠ d := by
  intro h
  rw [h, hd] at hc
  exact Bool.noConfusion hc

/-! ## Separator-splitting injectivity -/

theorem sep_append_inj (sep : Char) :
    ∀ (a b r s : List Char), sep ∉ a → sep ∉ b →
      a ++ sep :: r = b ++ sep :: s → a = b ∧ r = s := by
  intro a
  induction a with
  | nil =>
    intro b r s _ hb heq
    rcases b with _ | ⟨c, bs⟩
    · simpa using heq
    · simp only [List.nil_append, List.cons_append, List.cons.injEq] at heq
      exact absurd (heq.1 ▸ List.mem_cons_self c bs) hb
  | cons c as ih =>
    intro b r s ha hb heq
    rcases b with _ | ⟨c', bs⟩
    · simp only [List.cons_append, List.nil_append, List.cons.injEq] at heq
      exact absurd (heq.1 ▸ List.mem_cons_self c as) ha
    · simp only [List.cons_append, List.cons.injEq] at heq
      have ha' : sep ∉ as := fun h => ha (List.mem_cons_of_mem c h)
      have hb' : sep ∉ bs := fun h => hb (List.mem_cons_of_mem c' h)
      rcases ih bs r s ha' hb' heq.2 with ⟨h1, h2⟩
      exact ⟨by rw [heq.1, h1], h2⟩

/-! ## lastSpaceIndex lemmas -/

theorem lastSpaceIndex_lt_length (cs : List Char) :
    lastSpaceIndex cs < (cs.length : Int) := by
  induction cs with
  | nil => simp [lastSpaceIndex]
  | cons c t ih =>
    rw [lastSpaceIndex]
    by_cases hr : lastSpaceIndex t ≥ 0
    · simp only [hr, if_true, List.length_cons]
      push_cast
      omega
    · simp only [hr, if_false, List.length_cons]
      by_cases hc : c = ' ' <;> simp [hc] <;> push_cast <;> omega

theorem lastSpaceIndex_spec {cs : List Char} {k : Nat}
    (h : lastSpaceIndex cs = (k : Int)) : cs.get? k = some ' ' := by
  induction cs generalizing k with
  | nil => simp [lastSpaceIndex] at h
  | cons c t ih =>
    rw [lastSpaceIndex] at h
    by_cases hr : lastSpaceIndex t ≥ 0
    · rw [if_pos hr] at h
      obtain ⟨k', hk'⟩ : ∃ k' : Nat, lastSpaceIndex t = (k' : Int) :=
        ⟨(lastSpaceIndex t).toNat, (Int.toNat_of_nonneg hr).symm⟩
      rw [hk'] at h
      have hkk : k = k' + 1 := by omega
      subst hkk
      simpa using ih hk'
    · rw [if_neg hr] at h
      by_cases hc : c = ' '
      · rw [if_pos hc] at h
        have hk0 : k = 0 := by omega
        subst hk0
        simp [hc]
      · rw [if_neg hc] at h
        omega

theorem le_lastSpaceIndex {cs : List Char} {j : Nat}
    (h : cs.get? j = some ' ') : (j : Int) ≤ lastSpaceIndex cs := by
  induction cs generalizing j with
  | nil => simp at h
  | cons c t ih =>
    rw [lastSpaceIndex]
    rcases j with _ | j'
    · simp only [List.get?_cons_zero, Option.some.injEq] at h
      by_cases hr : lastSpaceIndex t ≥ 0
      · simp only [hr, if_true]; omega
      · simp [hr, h]
    · simp only [List.get?_cons_succ] at h
      have := ih h
      have hr : lastSpaceIndex t ≥ 0 := by omega
      simp only [hr, if_true]
      push_cast
      omega

/-! ## topExtract lemmas -/

theorem topExtract_mem (prev : Extract) :
    ∀ l, topExtract prev l ∈ prev :: l := by
  intro l
  induction l generalizing prev with
  | nil => simp [topExtract]
  | cons curr rest ih =>
    rw [topExtract]
    rcases List.mem_cons.mp
        (ih (if curr.relevanceScore > prev.relevanceScore then curr
             else prev)) with h | h
    · rw [h]
      by_cases hc : curr.relevanceScore > prev.relevanceScore
      · simp [hc]
      · simp [hc]
    · simp [h]

theorem topExtract_max (prev : Extract) :
    ∀ l, ∀ e ∈ prev :: l,
      e.relevanceScore ≤ (topExtract prev l).relevanceScore := by
  intro l
  induction l generalizing prev with
  | nil =>
    intro e he
    simp only [List.mem_singleton] at he
    simp [topExtract, he]
  | cons curr rest ih =>
    intro e he
    rw [topExtract]
    set next := if curr.relevanceScore > prev.relevanceScore then curr
      else prev with hnext
    have hprev : prev.relevanceScore ≤ next.relevanceScore := by
      rw [hnext]
      by_cases hc : curr.relevanceScore > prev.relevanceScore
      · simp only [hc, if_true]; omega
      · simp [hc]
    have hcurr : curr.relevanceScore ≤ next.relevanceScore := by
      rw [hnext]
      by_cases hc : curr.relevanceScore > prev.relevanceScore
      · simp [hc]
      · simp only [hc, if_false]; omega
    rcases List.mem_cons.mp he with he | he
    · exact he ▸ le_trans hprev (ih next next (List.mem_cons_self _ _))
    · rcases List.mem_cons.mp he with he | he
      · exact he ▸ le_trans hcurr (ih next next (List.mem_cons_self _ _))
      · exact ih next e (List.mem_cons_of_mem _ he)

/-! ## Reference-parser lemmas -/

theorem dropMarker_self_append :
    ∀ (m rest : List Char), dropMarker m (m ++ rest) = some rest := by
  intro m
  induction m with
  | nil => intro rest; rfl
  | cons c ms ih =>
    intro rest
    simp only [List.cons_append, dropMarker, if_pos rfl]
    exact ih rest

theorem splitAtSlash_append :
    ∀ (h t : List Char), '/' ∉ h →
      splitAtSlash (h ++ '/' :: t) = some (h, t) := by
  intro h
  induction h with
  | nil =>
    intro t _
    simp [splitAtSlash]
  | cons c hs ih =>
    intro t hmem
    have hc : ¬c = '/' := fun hc =>
      hmem (hc ▸ List.mem_cons_self c hs)
    simp only [List.cons_append, splitAtSlash, if_neg hc, List.append_eq]
    rw [ih t (fun hm => hmem (List.mem_cons_of_mem c hm))]
    rfl

theorem data_mk (l : List Char) : (String.mk l).data = l := rfl

theorem string_mk_data (s : String) : String.mk s.data = s := rfl

theorem parseCopilotRef_roundTrip (h : String) (d : List Char)
    (hne : h.data ≠ []) (hslash : '/' ∉ h.data) (hd : d ≠ [])
    (hdig : d.all Char.isDigit = true) :
    parseCopilotRef
      (String.mk ("copilot://search-".data ++ h.data ++ '/' ::
        ("result-".data ++ d))) = some (h, digitsToNat d) := by
  rw [parseCopilotRef]
  simp only [data_mk, List.append_assoc, dropMarker_self_append,
    splitAtSlash_append h.data ("result-".data ++ d) hslash,
    dropMarker_self_append, hne, hd, hdig, and_true, ne_eq,
    not_false_iff, if_true, if_false, ite_true, ite_false,
    string_mk_data]

/-! ## oldestScan lemmas -/

theorem oldestScan_keep {α : Type} (ts : α → Nat) :
    ∀ (m : List (String × α)) (b : String × Nat),
      (∀ p ∈ m, ¬ts p.2 < b.2) →
      oldestScan ts m (some b) = some b := by
  intro m
  induction m with
  | nil => intro b _; rfl
  | cons p rest ih =>
    intro b hall
    rcases p with ⟨k, v⟩
    rw [oldestScan]
    rw [if_neg (hall (k, v) (List.mem_cons_self _ _))]
    exact ih b (fun q hq => hall q (List.mem_cons_of_mem _ hq))

theorem oldestKey_sorted_head {α : Type} (ts : α → Nat) (k : String) (v : α)
    (rest : List (String × α))
    (hsorted : ∀ p ∈ rest, ts v ≤ ts p.2) :
    oldestKey ts ((k, v) :: rest) = some k := by
  rw [oldestKey, oldestScan]
  rw [oldestScan_keep ts rest (k, ts v)
    (fun p hp => not_lt.mpr (hsorted p hp))]
  rfl

/-! ## Cache-operation helper lemmas -/

theorem get_live (c : ResultCache) (now : Nat) (h : String)
    (e : CachedSearch) (hget : mapGet c.searchCache h = some e)
    (hlive : now - e.timestamp ≤ c.ttlMs) :
    c.get now h = (some e, c) := by
  simp only [ResultCache.get, hget]
  rw [if_neg (by omega : ¬now - e.timestamp > c.ttlMs)]

theorem get_expired (c : ResultCache) (now : Nat) (h : String)
    (e : CachedSearch) (hget : mapGet c.searchCache h = some e)
    (hexp : now - e.timestamp > c.ttlMs) :
    c.get now h =
      (none, { c with searchCache := mapDelete c.searchCache h }) := by
  simp only [ResultCache.get, hget]
  rw [if_pos (by omega : now - e.timestamp > c.ttlMs)]

theorem get_absent (c : ResultCache) (now : Nat) (h : String)
    (hget : mapGet c.searchCache h = none) :
    c.get now h = (none, c) := by
  simp only [ResultCache.get, hget]

theorem getResult_live_inBounds (c : ResultCache) (now : Nat) (h : String)
    (e : CachedSearch) (i : Nat) (hget : mapGet c.searchCache h = some e)
    (hlive : now - e.timestamp ≤ c.ttlMs) (hi : i < e.results.length) :
    c.getResult now h (Int.ofNat i) = (e.results.get? i, c) := by
  simp only [ResultCache.getResult, get_live c now h e hget hlive]
  have hcond : ¬(Int.ofNat i < 0 ∨ (e.results.length : Int) ≤ Int.ofNat i) := by
    simp only [Int.ofNat_eq_coe]
    push_cast
    omega
  rw [if_neg hcond]
  simp

theorem getResult_live_outOfBounds (c : ResultCache) (now : Nat)
    (h : String) (e : CachedSearch) (j : Int)
    (hget : mapGet c.searchCache h = some e)
    (hlive : now - e.timestamp ≤ c.ttlMs)
    (hj : j < 0 ∨ (e.results.length : Int) ≤ j) :
    c.getResult now h j = (none, c) := by
  simp only [ResultCache.getResult, get_live c now h e hget hlive]
  rw [if_pos hj]

/-! ## Claim C9 -/

/-- Claim C9: calling `setAttachment` twice with the same
`(messageId, attachmentId)` pair returns the same handle string both
times; the handle is the deterministic composite
`generateAttachmentId messageId attachmentId`, independent of cache state,
time, and payload. -/
theorem claim_C9_idempotent_attachment_handles :
    ∀ (c : ResultCache) (now1 now2 : Nat)
      (messageId attachmentId : String) (p1 p2 : AttachmentData),
      ((c.setAttachment now1 messageId attachmentId p1).2.setAttachment
          now2 messageId attachmentId p2).1 =
        (c.setAttachment now1 messageId attachmentId p1).1
      ∧ (c.setAttachment now1 messageId attachmentId p1).1 =
          generateAttachmentId messageId attachmentId := by
  intro c now1 now2 messageId attachmentId p1 p2
  exact ⟨rfl, rfl⟩

/-! ## Claim C3 -/

/-- Claim C3: an entry inserted at time `T` (its stored timestamp is `T`)
is a hit for `get` at every `now ≤ T + ttlMs` (the state is unchanged);
at every `now > T + ttlMs` it is a miss, the entry is removed, and every
later `get` on the same handle is also a miss. -/
theorem claim_C3_ttl_boundary :
    ∀ (c c' : ResultCache) (h q : String) (rs : List CopilotRetrievalHit)
      (T now now2 : Nat) (e : CachedSearch),
      mapGet (c.set T h q rs).searchCache h =
        some { searchId := h, query := q, timestamp := T, results := rs }
      ∧ (mapGet c'.searchCache h = some e →
          (now ≤ e.timestamp + c'.ttlMs → c'.get now h = (some e, c'))
          ∧ (now > e.timestamp + c'.ttlMs →
              (c'.get now h).1 = none
              ∧ mapGet ((c'.get now h).2).searchCache h = none
              ∧ ((c'.get now h).2.get now2 h = (none, (c'.get now h).2)))) := by
  intro c c' h q rs T now now2 e
  constructor
  · rw [ResultCache.set]
    exact mapGet_mapSet_self _ _ _
  · intro hget
    constructor
    · intro hle
      exact get_live c' now h e hget (by omega)
    · intro hgt
      rw [get_expired c' now h e hget (by omega)]
      refine ⟨rfl, mapGet_mapDelete_self _ _, ?_⟩
      exact get_absent _ now2 h (mapGet_mapDelete_self _ _)

/-- Concrete instantiation of claim C3: ttl 5, entry inserted at T = 10;
`get` at 14 (= T + ttl − 1) is a hit, `get` at 16 (= T + ttl + 1) is a
miss that removes the entry, and `get` at 20 on the resulting state
also misses. -/
theorem claim_C3_witness :
    (((ResultCache.mkEmpty 5 10).set 10 "h" "q" []).get 14 "h" =
      (some { searchId := "h", query := "q", timestamp := 10, results := [] },
       (ResultCache.mkEmpty 5 10).set 10 "h" "q" []))
    ∧ ((((ResultCache.mkEmpty 5 10).set 10 "h" "q" []).get 16 "h").1 = none
    ∧ mapGet ((((ResultCache.mkEmpty 5 10).set 10 "h" "q" []).get 16
        "h").2).searchCache "h" = none
    ∧ ((((ResultCache.mkEmpty 5 10).set 10 "h" "q" []).get 16 "h").2.get 20
        "h" =
      (none, (((ResultCache.mkEmpty 5 10).set 10 "h" "q" []).get 16
        "h").2))) := by
  have h1 := claim_C3_ttl_boundary (ResultCache.mkEmpty 5 10)
    ((ResultCache.mkEmpty 5 10).set 10 "h" "q" []) "h" "q" [] 10 14 20
    { searchId := "h", query := "q", timestamp := 10, results := [] }
  have h2 := claim_C3_ttl_boundary (ResultCache.mkEmpty 5 10)
    ((ResultCache.mkEmpty 5 10).set 10 "h" "q" []) "h" "q" [] 10 16 20
    { searchId := "h", query := "q", timestamp := 10, results := [] }
  exact ⟨(h1.2 (by decide)).1 (by decide), (h2.2 (by decide)).2 (by decide)⟩

/-! ## Claim C7 -/

/-- Claim C7 counterexample: the attachment handle is the bare
concatenation `messageId ++ ":" ++ attachmentId`, so the two distinct
pairs `("a:b", "c")` and `("a", "b:c")` collide on the same handle
`"a:b:c"` — distinct pairs do not always produce distinct handles. -/
theorem claim_C7_counterexample :
    generateAttachmentId "a:b" "c" = generateAttachmentId "a" "b:c"
    ∧ ("a:b", "c") ≠ (("a", "b:c") : String × String) := by
  exact ⟨rfl, by decide⟩

/-- Claim C7 amended: attachment handles are injective on pairs whose
message ids contain no colon; and search ids generated from pairwise
distinct `(Date.now(), randomSuffix)` observations, with dash-free
suffixes (as `Math.random().toString(36)` produces), are pairwise
distinct. -/
theorem claim_C7_amended_handle_uniqueness :
    ∀ (m1 a1 m2 a2 : String) (t1 t2 : Nat) (r1 r2 : String),
      (':' ∉ m1.data → ':' ∉ m2.data →
        generateAttachmentId m1 a1 = generateAttachmentId m2 a2 →
        m1 = m2 ∧ a1 = a2)
      ∧ ('-' ∉ r1.data → '-' ∉ r2.data → (t1, r1) ≠ (t2, r2) →
          generateSearchId t1 r1 ≠ generateSearchId t2 r2) := by
  intro m1 a1 m2 a2 t1 t2 r1 r2
  constructor
  · intro hm1 hm2 heq
    have hdata := congrArg String.data heq
    rw [generateAttachmentId, generateAttachmentId, String.data_append,
      String.data_append, String.data_append, String.data_append] at hdata
    have hsep := sep_append_inj ':' m1.data m2.data a1.data a2.data hm1 hm2
      (by simpa [List.append_assoc] using hdata)
    constructor
    · have := congrArg String.mk hsep.1
      rwa [string_mk_data, string_mk_data] at this
    · have := congrArg String.mk hsep.2
      rwa [string_mk_data, string_mk_data] at this
  · intro hr1 hr2 hne heq
    have hd1 : '-' ∉ natDecimal t1 := fun hm => by
      have := natDecimal_digits t1 hm
      exact absurd this (by decide)
    have hd2 : '-' ∉ natDecimal t2 := fun hm => by
      have := natDecimal_digits t2 hm
      exact absurd this (by decide)
    have hdata := congrArg String.data heq
    rw [generateSearchId, generateSearchId, String.data_append,
      String.data_append, String.data_append, String.data_append,
      data_mk, data_mk] at hdata
    have hsep := sep_append_inj '-' (natDecimal t1) (natDecimal t2)
      r1.data r2.data hd1 hd2 (by simpa [List.append_assoc] using hdata)
    apply hne
    have ht : t1 = t2 := natDecimal_inj hsep.1
    have hr : r1 = r2 := by
      have := congrArg String.mk hsep.2
      rwa [string_mk_data, string_mk_data] at this
    rw [ht, hr]

/-- Concrete instantiation of the amended claim C7: equal handles from
colon-free message ids force equal pairs, and distinct (time, suffix)
observations give distinct search ids. -/
theorem claim_C7_amended_witness :
    ("m1" = "m1" ∧ "a1" = "a1")
    ∧ generateSearchId 1 "ab" ≠ generateSearchId 2 "ab" := by
  have h := claim_C7_amended_handle_uniqueness "m1" "a1" "m1" "a1" 1 2
    "ab" "ab"
  exact ⟨h.1 (by decide) (by decide) rfl,
    h.2 (by decide) (by decide) (by decide)⟩

/-! ## Claim C6 -/

/-- Claim C6: for a live search cache entry with handle `H` storing `n`
records, resolving `copilot://search-H/result-i` (with `i` written as a
decimal numeral) for `0 ≤ i < n` returns exactly the `(i+1)`-th stored
record's full view (all extracts with scores, metadata, sensitivity
label); `getResult` returns the stored record for an in-range index, and
any out-of-range index (negative or `≥ n`) is a plain miss (`none`), not
an error. -/
theorem claim_C6_reference_roundTrip :
    ∀ (c : ResultCache) (h : String) (e : CachedSearch) (now : Nat)
      (d : List Char) (i : Nat) (j : Int) (rec : CopilotRetrievalHit),
      mapGet c.searchCache h = some e →
      now - e.timestamp ≤ c.ttlMs →
      ((h.data ≠ [] → '/' ∉ h.data → d ≠ [] →
        d.all Char.isDigit = true → digitsToNat d = i →
        e.results.get? i = some rec →
        (resolveRef c now
          (String.mk ("copilot://search-".data ++ h.data ++ '/' ::
            ("result-".data ++ d)))).1 =
          Except.ok (.searchResult (fullView rec)))
      ∧ (i < e.results.length →
          (c.getResult now h (Int.ofNat i)).1 = e.results.get? i)
      ∧ ((j < 0 ∨ (e.results.length : Int) ≤ j) →
          (c.getResult now h j).1 = none)) := by
  intro c h e now d i j rec hget hlive
  refine ⟨?_, ?_, ?_⟩
  · intro hne hslash hd hdig hval hrec
    have hi : i < e.results.length := by
      rcases List.get?_eq_some.mp hrec with ⟨hlt, _⟩
      exact hlt
    have hparse := parseCopilotRef_roundTrip h d hne hslash hd hdig
    rw [hval] at hparse
    simp only [resolveRef, hparse,
      getResult_live_inBounds c now h e i hget hlive hi, hrec]
  · intro hi
    rw [getResult_live_inBounds c now h e i hget hlive hi]
  · intro hj
    rw [getResult_live_outOfBounds c now h e j hget hlive hj]

def c6hit0 : CopilotRetrievalHit :=
  { webUrl := "u0", resourceType := "site", sensitivityLabel := none,
    resourceMetadata := none, extracts := [] }

def c6hit1 : CopilotRetrievalHit :=
  { webUrl := "u1", resourceType := "drive",
    sensitivityLabel := some "confidential",
    resourceMetadata := some "meta",
    extracts := [{ text := "t", relevanceScore := 2 }] }

def c6cache : ResultCache :=
  { searchCache := [("abc",
      { searchId := "abc", query := "q", timestamp := 0,
        results := [c6hit0, c6hit1] })],
    attachmentCache := [], ttlMs := 5, maxEntries := 10 }

/-- Concrete instantiation of claim C6: a cached search with two records;
`result-1` resolves to the second record's full view, and index 5 is a
miss. -/
theorem claim_C6_witness :
    (resolveRef c6cache 3
      (String.mk ("copilot://search-".data ++ "abc".data ++ '/' ::
        ("result-".data ++ ['1'])))).1 =
      Except.ok (.searchResult (fullView c6hit1))
    ∧ (c6cache.getResult 3 "abc" (Int.ofNat 1)).1 = [c6hit0, c6hit1].get? 1
    ∧ (c6cache.getResult 3 "abc" 5).1 = none := by
  have h := claim_C6_reference_roundTrip c6cache "abc"
    { searchId := "abc", query := "q", timestamp := 0,
      results := [c6hit0, c6hit1] } 3 ['1'] 1 5 c6hit1
    (by decide) (by decide)
  exact ⟨h.1 (by decide) (by decide) (by decide) (by decide) (by decide)
      (by decide),
    h.2.1 (by decide), h.2.2 (by decide)⟩

/-! ## Claim C8 -/

/-- Claim C8: an unparseable reference (neither the copilot search-result
scheme nor the attachment scheme) yields the `invalidUri` error, while a
well-formed reference whose handle or sub-index misses the cache yields a
not-found error; the two error messages always differ, and the not-found
messages end with the expiry hint. -/
theorem claim_C8_error_taxonomy :
    ∀ (c : ResultCache) (now : Nat) (u1 u2 u3 sid : String) (idx : Nat)
      (aid u v : String),
      (parseCopilotRef u1 = none → parseAttachmentRef u1 = none →
        (resolveRef c now u1).1 = .error (.invalidUri u1))
      ∧ (parseCopilotRef u2 = some (sid, idx) →
          (c.getResult now sid (Int.ofNat idx)).1 = none →
          (resolveRef c now u2).1 = .error (.resourceNotFound u2))
      ∧ (parseCopilotRef u3 = none → parseAttachmentRef u3 = some aid →
          (c.getAttachment now aid).1 = none →
          (resolveRef c now u3).1 = .error (.attachmentNotFound u3))
      ∧ (ResolveError.invalidUri u).message ≠
          (ResolveError.resourceNotFound v).message
      ∧ (ResolveError.invalidUri u).message ≠
          (ResolveError.attachmentNotFound v).message
      ∧ (ResolveError.resourceNotFound u).message =
          "Resource not found: " ++ u ++ " (may have expired from cache)"
      ∧ (ResolveError.attachmentNotFound u).message =
          "Attachment not found: " ++ u ++
            " (may have expired from cache)" := by
  intro c now u1 u2 u3 sid idx aid u v
  refine ⟨?_, ?_, ?_, ?_, ?_, rfl, rfl⟩
  · intro hp ha
    simp only [resolveRef, hp, ha]
  · intro hp hmiss
    rcases hr : c.getResult now sid (Int.ofNat idx) with ⟨r1, r2⟩
    rw [hr] at hmiss
    simp only at hmiss
    subst hmiss
    simp only [resolveRef, hp, hr]
  · intro hp ha hmiss
    rcases hr : c.getAttachment now aid with ⟨r1, r2⟩
    rw [hr] at hmiss
    simp only at hmiss
    subst hmiss
    simp only [resolveRef, hp, ha, hr]
  · intro heq
    exact absurd
      (show (some 'I' : Option Char) = some 'R' from
        congrArg (fun s => s.data.head?) heq)
      (by decide)
  · intro heq
    exact absurd
      (show (some 'I' : Option Char) = some 'A' from
        congrArg (fun s => s.data.head?) heq)
      (by decide)

/-- Concrete instantiation of claim C8: on an empty cache, `"bogus"` is an
invalid URI, a well-formed search reference and a well-formed attachment
reference are not-found, and the messages differ. -/
theorem claim_C8_witness :
    (resolveRef (ResultCache.mkEmpty 5 10) 0 "bogus").1 =
      .error (.invalidUri "bogus")
    ∧ (resolveRef (ResultCache.mkEmpty 5 10) 0
        "copilot://search-x/result-0").1 =
      .error (.resourceNotFound "copilot://search-x/result-0")
    ∧ (resolveRef (ResultCache.mkEmpty 5 10) 0 "attachment://y").1 =
      .error (.attachmentNotFound "attachment://y")
    ∧ (ResolveError.invalidUri "p").message ≠
        (ResolveError.resourceNotFound "q").message
    ∧ (ResolveError.invalidUri "p").message ≠
        (ResolveError.attachmentNotFound "q").message := by
  have h := claim_C8_error_taxonomy (ResultCache.mkEmpty 5 10) 0 "bogus"
    "copilot://search-x/result-0" "attachment://y" "x" 0 "y" "p" "q"
  exact ⟨h.1 (by decide) (by decide), h.2.1 (by decide) (by decide),
    h.2.2.1 (by decide) (by decide) (by decide), h.2.2.2.1, h.2.2.2.2.1⟩

/-! ## Claim C5 -/

theorem excerpt_cons_eq (e0 : Extract) (rest : List Extract) :
    createBriefExcerptChars (e0 :: rest) =
      if (topExtract e0 rest).text.data.length ≤ 150 then
        (topExtract e0 rest).text.data
      else if lastSpaceIndex ((topExtract e0 rest).text.data.take 150) >
          0 then
        ((topExtract e0 rest).text.data.take 150).take
          (lastSpaceIndex ((topExtract e0 rest).text.data.take 150)).toNat
          ++ ellipsisChars
      else (topExtract e0 rest).text.data.take 150 ++ ellipsisChars := rfl

theorem cut_spec (t : List Char) (hgt : ¬t.length ≤ 150)
    (hex : ∃ jj, 0 < jj ∧ jj < 150 ∧ t.get? jj = some ' ') :
    ∃ k, 0 < k ∧ k < 150 ∧
      (if lastSpaceIndex (t.take 150) > 0 then
        (t.take 150).take (lastSpaceIndex (t.take 150)).toNat ++
          ellipsisChars
      else t.take 150 ++ ellipsisChars) = t.take k ++ ellipsisChars
      ∧ t.get? k = some ' ' := by
  obtain ⟨jj, hjj0, hjj150, hjsp⟩ := hex
  have htr : (t.take 150).get? jj = some ' ' := by
    rw [List.get?_take hjj150]
    exact hjsp
  have hge := le_lastSpaceIndex htr
  have hjj0' : (0 : Int) < (jj : Int) := by exact_mod_cast hjj0
  have hpos : lastSpaceIndex (t.take 150) > 0 := by omega
  obtain ⟨k, hk⟩ : ∃ k : Nat, lastSpaceIndex (t.take 150) = (k : Int) :=
    ⟨(lastSpaceIndex (t.take 150)).toNat,
     (Int.toNat_of_nonneg (by omega)).symm⟩
  have hkpos : 0 < k := by
    have : (0 : Int) < (k : Int) := hk ▸ hpos
    exact_mod_cast this
  have hlen_take : (t.take 150).length = 150 := by
    rw [List.length_take]
    omega
  have hklt : k < 150 := by
    have h1 := lastSpaceIndex_lt_length (t.take 150)
    rw [hk, hlen_take] at h1
    exact_mod_cast h1
  refine ⟨k, hkpos, hklt, ?_, ?_⟩
  · rw [if_pos hpos, hk]
    have htn : ((k : Int)).toNat = k := by omega
    rw [htn, List.take_take, Nat.min_eq_left (by omega)]
  · have := lastSpaceIndex_spec hk
    rw [List.get?_take hklt] at this
    exact this

/-- Claim C5 (amended): the excerpt is at most `150 + 3` characters; no
extracts yield the empty excerpt; the chosen extract is a stored extract
of maximal relevance score; a text within the budget is returned whole; a
longer text yields an excerpt ending in the ellipsis marker, and whenever
a space occurs at a positive index within the 150-character budget the
cut lands exactly on a space of the original text (so no word is split).
The amendment: the original claim's exception "unless no whitespace
exists within the budget" must also except a space occurring only at
index 0, and the cut boundary is the character `' '` rather than general
whitespace, because the source checks `lastIndexOf(' ') > 0`. -/
theorem claim_C5_amended_excerpt :
    ∀ (extracts : List Extract) (e0 : Extract) (rest : List Extract),
      (createBriefExcerptChars extracts).length ≤ 150 + ellipsisChars.length
      ∧ (extracts = [] → createBriefExcerptChars extracts = [])
      ∧ (extracts = e0 :: rest →
          chosenExtract extracts = some (topExtract e0 rest)
          ∧ topExtract e0 rest ∈ extracts
          ∧ (∀ e ∈ extracts,
              e.relevanceScore ≤ (topExtract e0 rest).relevanceScore)
          ∧ ((topExtract e0 rest).text.data.length ≤ 150 →
              createBriefExcerptChars extracts =
                (topExtract e0 rest).text.data)
          ∧ ((topExtract e0 rest).text.data.length > 150 →
              (∃ pre, createBriefExcerptChars extracts =
                pre ++ ellipsisChars)
              ∧ ((∃ jj, 0 < jj ∧ jj < 150 ∧
                    (topExtract e0 rest).text.data.get? jj = some ' ') →
                  ∃ k, 0 < k ∧ k < 150 ∧
                    createBriefExcerptChars extracts =
                      (topExtract e0 rest).text.data.take k ++
                        ellipsisChars
                    ∧ (topExtract e0 rest).text.data.get? k =
                        some ' '))) := by
  intro extracts e0 rest
  refine ⟨?_, ?_, ?_⟩
  · cases extracts with
    | nil => simp [createBriefExcerptChars, ellipsisChars]
    | cons a t =>
      rw [excerpt_cons_eq]
      have hell : ellipsisChars.length = 3 := rfl
      by_cases hlen : (topExtract a t).text.data.length ≤ 150
      · rw [if_pos hlen]
        omega
      · rw [if_neg hlen]
        by_cases hsp :
            lastSpaceIndex ((topExtract a t).text.data.take 150) > 0
        · rw [if_pos hsp]
          have h1 : (((topExtract a t).text.data.take 150).take
              (lastSpaceIndex
                ((topExtract a t).text.data.take 150)).toNat).length ≤
              150 := by
            rw [List.length_take, List.length_take]
            omega
          rw [List.length_append]
          omega
        · rw [if_neg hsp]
          have h1 : ((topExtract a t).text.data.take 150).length ≤ 150 := by
            rw [List.length_take]
            omega
          rw [List.length_append]
          omega
  · intro hnil
    rw [hnil]
    rfl
  · intro hx
    subst hx
    refine ⟨rfl, topExtract_mem e0 rest, topExtract_max e0 rest, ?_, ?_⟩
    · intro hle
      rw [excerpt_cons_eq, if_pos hle]
    · intro hgt
      constructor
      · rw [excerpt_cons_eq, if_neg (by omega)]
        by_cases hsp :
            lastSpaceIndex ((topExtract e0 rest).text.data.take 150) > 0
        · rw [if_pos hsp]
          exact ⟨_, rfl⟩
        · rw [if_neg hsp]
          exact ⟨_, rfl⟩
      · intro hex
        obtain ⟨k, hk0, hk150, heq, hsp⟩ :=
          cut_spec (topExtract e0 rest).text.data (by omega) hex
        refine ⟨k, hk0, hk150, ?_, hsp⟩
        rw [excerpt_cons_eq, if_neg (by omega)]
        exact heq

def c5text : List Char := ' ' :: List.replicate 160 'a'

def c5exBad : Extract :=
  { text := String.mk c5text, relevanceScore := 1 }

/-- Claim C5 counterexample: for the single extract whose text is a space
followed by 160 letters, the only space within the 150-character budget
is at index 0, the source's `lastIndexOf(' ') > 0` test fails, and the
excerpt is a hard cut after character 150: the characters on both sides
of the cut (indices 149 and 150 of the text) are letters, so the cut
splits a word even though whitespace did occur within the budget —
refuting the claim's word-boundary guarantee as stated. -/
theorem claim_C5_counterexample :
    createBriefExcerptChars [c5exBad] = c5text.take 150 ++ ellipsisChars
    ∧ c5text.get? 0 = some ' '
    ∧ c5text.length > 150
    ∧ c5text.get? 149 = some 'a'
    ∧ c5text.get? 150 = some 'a' := by
  refine ⟨?_, by decide, by decide, by decide, by decide⟩
  decide

def c5ex : Extract :=
  { text := String.mk ('a' :: 'b' :: ' ' :: List.replicate 160 'c'),
    relevanceScore := 1 }

/-- Concrete instantiation of the amended claim C5: a 163-character text
with a space at index 2 is cut at a space, within budget, with the
ellipsis appended. -/
theorem claim_C5_witness :
    (createBriefExcerptChars [c5ex]).length ≤ 150 + ellipsisChars.length
    ∧ (∃ k, 0 < k ∧ k < 150 ∧
        createBriefExcerptChars [c5ex] =
          (topExtract c5ex []).text.data.take k ++ ellipsisChars
        ∧ (topExtract c5ex []).text.data.get? k = some ' ') := by
  have h := claim_C5_amended_excerpt [c5ex] c5ex []
  refine ⟨h.1, ?_⟩
  exact (h.2.2 rfl).2.2.2.2 (by decide) |>.2 ⟨2, by decide, by decide,
    by decide⟩

/-! ## Claim C10 -/

theorem oldestScan_mem {α : Type} (ts : α → Nat) :
    ∀ (m : List (String × α)) (acc : Option (String × Nat))
      (b : String × Nat),
      oldestScan ts m acc = some b →
      (∃ p ∈ m, b = (p.1, ts p.2)) ∨ acc = some b := by
  intro m
  induction m with
  | nil =>
    intro acc b hb
    exact Or.inr hb
  | cons p rest ih =>
    intro acc b hb
    rcases p with ⟨k, v⟩
    rcases acc with _ | a
    · simp only [oldestScan] at hb
      rcases ih (some (k, ts v)) b hb with h | h
      · rcases h with ⟨q, hq, hbq⟩
        exact Or.inl ⟨q, List.mem_cons_of_mem _ hq, hbq⟩
      · refine Or.inl ⟨(k, v), List.mem_cons_self _ _, ?_⟩
        simpa using h.symm
    · simp only [oldestScan] at hb
      by_cases hlt : ts v < a.2
      · rw [if_pos hlt] at hb
        rcases ih (some (k, ts v)) b hb with h | h
        · rcases h with ⟨q, hq, hbq⟩
          exact Or.inl ⟨q, List.mem_cons_of_mem _ hq, hbq⟩
        · refine Or.inl ⟨(k, v), List.mem_cons_self _ _, ?_⟩
          simpa using h.symm
      · rw [if_neg hlt] at hb
        rcases ih (some a) b hb with h | h
        · rcases h with ⟨q, hq, hbq⟩
          exact Or.inl ⟨q, List.mem_cons_of_mem _ hq, hbq⟩
        · exact Or.inr h

theorem oldestKey_mem {α : Type} (ts : α → Nat) (m : List (String × α))
    (o : String) (h : oldestKey ts m = some o) : o ∈ m.map Prod.fst := by
  rw [oldestKey] at h
  rcases Option.map_eq_some'.mp h with ⟨b, hb, hbo⟩
  rcases oldestScan_mem ts m none b hb with hmem | habs
  · rcases hmem with ⟨p, hp, hbp⟩
    rw [← hbo, hbp]
    exact List.mem_map.mpr ⟨p, hp, rfl⟩
  · exact Option.noConfusion habs

/-- Claim C10 (amended): when `set` (resp. `setAttachment`) runs on a
cache that already holds `maxEntries` entries, the eviction fires even if
the written handle is already present — the decision looks only at the
size.  Amendment: when the written handle is itself the oldest entry, the
eviction removes that very handle (not an unrelated entry) and the
overwrite leaves `maxEntries` entries; and when the oldest entry is
keyed by the empty string, the source's `if (oldestId)` truthiness test
skips eviction entirely, so the overwrite leaves `maxEntries` entries
with the oldest still present.  The claimed `maxEntries − 1` outcome
holds exactly when the written handle is not the oldest entry and the
oldest key is nonempty. -/
theorem claim_C10_amended_overwrite_at_capacity :
    ∀ (c : ResultCache) (now : Nat) (h q : String)
      (rs : List CopilotRetrievalHit) (o : String) (mid aid : String)
      (att : AttachmentData) (oa : String),
      ((c.searchCache.map Prod.fst).Nodup →
        c.searchCache.length = c.maxEntries →
        1 ≤ c.maxEntries →
        h ∈ c.searchCache.map Prod.fst →
        oldestKey (fun e => e.timestamp) c.searchCache = some o →
        o ≠ h → o ≠ "" →
        (c.set now h q rs).searchCache.length = c.maxEntries - 1
        ∧ mapGet (c.set now h q rs).searchCache o = none
        ∧ mapGet (c.set now h q rs).searchCache h =
            some ⟨h, q, now, rs⟩)
      ∧ ((c.attachmentCache.map Prod.fst).Nodup →
        c.attachmentCache.length = c.maxEntries →
        1 ≤ c.maxEntries →
        generateAttachmentId mid aid ∈ c.attachmentCache.map Prod.fst →
        oldestKey (fun e => e.timestamp) c.attachmentCache = some oa →
        oa ≠ generateAttachmentId mid aid → oa ≠ "" →
        (c.setAttachment now mid aid att).2.attachmentCache.length =
          c.maxEntries - 1
        ∧ mapGet (c.setAttachment now mid aid att).2.attachmentCache oa =
            none
        ∧ mapGet (c.setAttachment now mid aid att).2.attachmentCache
            (generateAttachmentId mid aid) =
            some ⟨generateAttachmentId mid aid, mid, now, att⟩) := by
  intro c now h q rs o mid aid att oa
  constructor
  · intro hnd hlen hmax hmem hold hne hone
    have homem : o ∈ c.searchCache.map Prod.fst :=
      oldestKey_mem _ _ _ hold
    have hcond : c.searchCache.length ≥ c.maxEntries := by omega
    simp only [ResultCache.set, if_pos hcond,
      ResultCache.evictOldestSearch, hold, if_neg hone]
    have hh1 : (mapGet (mapDelete c.searchCache o) h).isSome := by
      rw [mapGet_mapDelete_ne _ o h (Ne.symm hne)]
      exact (mapGet_isSome_iff _ _).mpr hmem
    have hhmem' : h ∈ (mapDelete c.searchCache o).map Prod.fst :=
      (mapGet_isSome_iff _ _).mp hh1
    refine ⟨?_, ?_, ?_⟩
    · rw [length_mapSet_mem _ _ _ hhmem',
        length_mapDelete_mem _ _ hnd homem, hlen]
    · rw [mapGet_mapSet_ne _ h o _ hne, mapGet_mapDelete_self]
    · exact mapGet_mapSet_self _ _ _
  · intro hnd hlen hmax hmem hold hne hone
    have homem : oa ∈ c.attachmentCache.map Prod.fst :=
      oldestKey_mem _ _ _ hold
    have hcond : c.attachmentCache.length ≥ c.maxEntries := by omega
    simp only [ResultCache.setAttachment, if_pos hcond,
      ResultCache.evictOldestAttachment, hold, if_neg hone]
    have hh1 : (mapGet (mapDelete c.attachmentCache oa)
        (generateAttachmentId mid aid)).isSome := by
      rw [mapGet_mapDelete_ne _ oa _ (Ne.symm hne)]
      exact (mapGet_isSome_iff _ _).mpr hmem
    have hhmem' : generateAttachmentId mid aid ∈
        (mapDelete c.attachmentCache oa).map Prod.fst :=
      (mapGet_isSome_iff _ _).mp hh1
    refine ⟨?_, ?_, ?_⟩
    · rw [length_mapSet_mem _ _ _ hhmem',
        length_mapDelete_mem _ _ hnd homem, hlen]
    · rw [mapGet_mapSet_ne _ _ oa _ hne, mapGet_mapDelete_self]
    · exact mapGet_mapSet_self _ _ _

def c10cache : ResultCache :=
  { searchCache := [("h", ⟨"h", "q", 0, []⟩)],
    attachmentCache := [], ttlMs := 1000, maxEntries := 1 }

def c10ecache : ResultCache :=
  { searchCache := [("", ⟨"", "q", 1, []⟩), ("B", ⟨"B", "q", 2, []⟩)],
    attachmentCache := [], ttlMs := 1000, maxEntries := 2 }

/-- Claim C10 counterexample: with `maxEntries = 1` and the single stored
handle `"h"` being overwritten, the size-only eviction removes `"h"`
itself (not an unrelated entry) and the overwrite leaves 1 entry, not
`maxEntries − 1 = 0`; and with the oldest entry keyed by the empty
string, overwriting another present handle at capacity skips eviction
entirely (the JS `if (oldestId)` truthiness test fails on `""`), leaving
`maxEntries` entries with the empty-keyed entry still present — both
refuting the claim's universal `maxEntries − 1` outcome. -/
theorem claim_C10_counterexample :
    ("h" ∈ c10cache.searchCache.map Prod.fst
    ∧ c10cache.searchCache.length = c10cache.maxEntries
    ∧ (c10cache.set 5 "h" "q2" []).searchCache.length = 1
    ∧ c10cache.maxEntries - 1 = 0
    ∧ (c10cache.set 5 "h" "q2" []).searchCache.length ≠
        c10cache.maxEntries - 1)
    ∧ ("B" ∈ c10ecache.searchCache.map Prod.fst
    ∧ c10ecache.searchCache.length = c10ecache.maxEntries
    ∧ oldestKey (fun e => e.timestamp) c10ecache.searchCache = some ""
    ∧ (c10ecache.set 5 "B" "q2" []).searchCache.length =
        c10ecache.maxEntries
    ∧ mapGet (c10ecache.set 5 "B" "q2" []).searchCache "" =
        some ⟨"", "q", 1, []⟩) := by
  decide

def c10watt : AttachmentData :=
  { name := "f", contentType := "text/plain", contentBytes := "AA",
    size := 2 }

def c10wcache : ResultCache :=
  { searchCache := [("A", ⟨"A", "q", 1, []⟩), ("B", ⟨"B", "q", 2, []⟩)],
    attachmentCache := [("m:x", ⟨"m:x", "m", 1, c10watt⟩),
      ("m:y", ⟨"m:y", "m", 2, c10watt⟩)],
    ttlMs := 1000, maxEntries := 2 }

/-- Concrete instantiation of the amended claim C10: overwriting the
newer handle at capacity evicts the oldest other entry and leaves
`maxEntries − 1` entries, in both caches. -/
theorem claim_C10_witness :
    ((c10wcache.set 5 "B" "q2" []).searchCache.length =
      c10wcache.maxEntries - 1
    ∧ mapGet (c10wcache.set 5 "B" "q2" []).searchCache "A" = none
    ∧ mapGet (c10wcache.set 5 "B" "q2" []).searchCache "B" =
        some ⟨"B", "q2", 5, []⟩)
    ∧ ((c10wcache.setAttachment 5 "m" "y" c10watt).2.attachmentCache.length
        = c10wcache.maxEntries - 1
    ∧ mapGet (c10wcache.setAttachment 5 "m" "y"
        c10watt).2.attachmentCache "m:x" = none
    ∧ mapGet (c10wcache.setAttachment 5 "m" "y"
        c10watt).2.attachmentCache (generateAttachmentId "m" "y") =
        some ⟨generateAttachmentId "m" "y", "m", 5, c10watt⟩) := by
  have h := claim_C10_amended_overwrite_at_capacity c10wcache 5 "B" "q2"
    [] "A" "m" "y" c10watt "m:x"
  exact ⟨h.1 (by decide) (by decide) (by decide) (by decide) (by decide)
      (by decide) (by decide),
    h.2 (by decide) (by decide) (by decide) (by decide) (by decide)
      (by decide) (by decide)⟩

/-! ## Claim C2 -/

/-- One insertion sequence: `set` applied once per `(handle, timestamp)`
item, left to right (query and payload are irrelevant to capacity). -/
def runSets (c : ResultCache) (items : List (String × Nat)) : ResultCache :=
  items.foldl (fun acc it => acc.set it.2 it.1 "" []) c

/-- The cache pair an insertion item produces. -/
def mkSearchPair (it : String × Nat) : String × CachedSearch :=
  (it.1, ⟨it.1, "", it.2, []⟩)

theorem keys_mkSearchPair (z : List (String × Nat)) :
    (z.map mkSearchPair).map Prod.fst = z.map Prod.fst := by
  induction z with
  | nil => rfl
  | cons p t ih => simp [mkSearchPair, ih]

theorem runSets_suffix (ttl maxE : Nat) (hmax : 1 ≤ maxE) :
    ∀ items : List (String × Nat),
      (items.map Prod.fst).Nodup →
      items.Pairwise (fun x y => x.2 ≤ y.2) →
      (∀ it ∈ items, it.1 ≠ "") →
      runSets (ResultCache.mkEmpty ttl maxE) items =
        { searchCache :=
            (items.drop (items.length - maxE)).map mkSearchPair,
          attachmentCache := [], ttlMs := ttl, maxEntries := maxE } := by
  intro items
  induction items using List.reverseRecOn with
  | nil =>
    intro _ _ _
    simp [runSets, ResultCache.mkEmpty]
  | append_singleton l a ih =>
    intro hnd hpw hnem
    have hndl : (l.map Prod.fst).Nodup := by
      rw [List.map_append] at hnd
      exact (List.nodup_append.mp hnd).1
    have hdisj : a.1 ∉ l.map Prod.fst := by
      rw [List.map_append] at hnd
      intro hmem
      exact (List.nodup_append.mp hnd).2.2 hmem (by simp)
    have hpwl : l.Pairwise (fun x y => x.2 ≤ y.2) :=
      hpw.sublist (l.sublist_append_left [a])
    have hneml : ∀ it ∈ l, it.1 ≠ "" :=
      fun it hit => hnem it (List.mem_append_left [a] hit)
    have hstep : runSets (ResultCache.mkEmpty ttl maxE) (l ++ [a]) =
        (runSets (ResultCache.mkEmpty ttl maxE) l).set a.2 a.1 "" [] := by
      simp [runSets, List.foldl_append]
    rw [hstep, ih hndl hpwl hneml]
    by_cases hlt : l.length < maxE
    · have hd0 : l.length - maxE = 0 := by omega
      have hcond :
          ¬((l.drop (l.length - maxE)).map mkSearchPair).length ≥ maxE := by
        rw [List.length_map, List.length_drop]
        omega
      have hnotmem :
          a.1 ∉ ((l.drop (l.length - maxE)).map mkSearchPair).map
            Prod.fst := by
        rw [keys_mkSearchPair]
        intro hmem
        exact hdisj
          (((l.drop_sublist (l.length - maxE)).map Prod.fst).subset hmem)
      simp only [ResultCache.set, if_neg hcond]
      rw [mapSet_of_not_mem _ hnotmem]
      have hd1 : l.length + 1 - maxE = 0 := by omega
      simp [hd0, hd1, List.map_append, mkSearchPair]
    · have hxlen :
          ((l.drop (l.length - maxE)).map mkSearchPair).length = maxE := by
        rw [List.length_map, List.length_drop]
        omega
      rcases hsuf : l.drop (l.length - maxE) with _ | ⟨hd, tl⟩
      · rw [hsuf] at hxlen
        simp at hxlen
        omega
      · have hsorted_drop :
            (l.drop (l.length - maxE)).Pairwise (fun x y => x.2 ≤ y.2) :=
          hpwl.sublist (l.drop_sublist (l.length - maxE))
        rw [hsuf] at hsorted_drop
        have hhd := (List.pairwise_cons.mp hsorted_drop).1
        have hold : oldestKey (fun e => e.timestamp)
            ((hd :: tl).map mkSearchPair) = some hd.1 := by
          rw [List.map_cons]
          apply oldestKey_sorted_head
          intro p hp
          rcases List.mem_map.mp hp with ⟨q, hq, hpq⟩
          rw [← hpq]
          exact hhd q hq
        have hdropnd : ((hd :: tl).map Prod.fst).Nodup := by
          have := hndl.sublist ((l.drop_sublist (l.length - maxE)).map
            Prod.fst)
          rwa [hsuf] at this
        have hhdni : hd.1 ∉ tl.map Prod.fst := by
          rw [List.map_cons, List.nodup_cons] at hdropnd
          exact hdropnd.1
      /- delete the head (the oldest), then append the fresh handle -/
        have hdel : mapDelete ((hd :: tl).map mkSearchPair) hd.1 =
            tl.map mkSearchPair := by
          rw [List.map_cons]
          have hk : hd.1 ∉ (tl.map mkSearchPair).map Prod.fst := by
            rwa [keys_mkSearchPair]
          exact mapDelete_cons_self _ _ _ hk
        have hanotmem :
            a.1 ∉ (tl.map mkSearchPair).map Prod.fst := by
          rw [keys_mkSearchPair]
          intro hmem
          apply hdisj
          have h1 : a.1 ∈ (hd :: tl).map Prod.fst := by
            rw [List.map_cons]
            exact List.mem_cons_of_mem _ hmem
          rw [← hsuf] at h1
          exact ((l.drop_sublist (l.length - maxE)).map Prod.fst).subset h1
        have hcond2 : ((hd :: tl).map mkSearchPair).length ≥ maxE := by
          rw [← hsuf]
          omega
        have hhdne : ¬hd.1 = "" := by
          apply hneml hd
          exact (l.drop_sublist (l.length - maxE)).subset
            (hsuf ▸ List.mem_cons_self hd tl)
        simp only [ResultCache.set, if_pos hcond2,
          ResultCache.evictOldestSearch, hold, if_neg hhdne, hdel]
        rw [mapSet_of_not_mem _ hanotmem]
        have hlen1 : (l ++ [a]).length - maxE = (l.length - maxE) + 1 := by
          rw [List.length_append]
          simp only [List.length_singleton]
          omega
        have hdle : (l.length - maxE) + 1 ≤ l.length := by omega
        have hdrop2 : l.drop ((l.length - maxE) + 1) = tl := by
          rw [← List.tail_drop, hsuf]
          rfl
        rw [hlen1, List.drop_append_of_le_length hdle, hdrop2]
        simp [List.map_append, mkSearchPair]

/-- Claim C2 (amended): for every capacity `maxEntries ≥ 1`, inserting
`maxEntries + k` entries (`k ≥ 1`) with pairwise-distinct handles and
nondecreasing timestamps one at a time into a fresh cache leaves exactly
`maxEntries` entries; the `k` oldest-inserted handles are absent, and
the surviving map is exactly the last `maxEntries` insertions in order
(each put at capacity having evicted the single oldest entry).
Amendments: the claim fails for `maxEntries = 0` (eviction before insert
still leaves one entry), so the capacity is required to be positive; and
it fails when a handle is the empty string (the source's `if (oldestId)`
truthiness test skips eviction of an empty-keyed oldest entry, leaving
the cache over capacity), so the handles are required to be nonempty. -/
theorem claim_C2_amended_capacity_invariant :
    ∀ (ttl maxE k : Nat) (items : List (String × Nat)),
      1 ≤ maxE → 1 ≤ k →
      items.length = maxE + k →
      (items.map Prod.fst).Nodup →
      items.Pairwise (fun x y => x.2 ≤ y.2) →
      (∀ it ∈ items, it.1 ≠ "") →
      (runSets (ResultCache.mkEmpty ttl maxE) items).searchCache.length =
        maxE
      ∧ (∀ it ∈ items.take k,
          mapGet (runSets (ResultCache.mkEmpty ttl maxE)
            items).searchCache it.1 = none)
      ∧ (runSets (ResultCache.mkEmpty ttl maxE) items).searchCache =
          (items.drop k).map mkSearchPair := by
  intro ttl maxE k items hmax hk hlen hnd hpw hnem
  have hkk : items.length - maxE = k := by omega
  have hsuf := runSets_suffix ttl maxE hmax items hnd hpw hnem
  rw [hsuf]
  simp only [hkk]
  refine ⟨?_, ?_, ?_⟩
  · rw [List.length_map, List.length_drop]
    omega
  · intro it hit
    rw [mapGet_eq_none_iff, keys_mkSearchPair]
    intro hmem
    have hnd2 : (items.map Prod.fst).Nodup := hnd
    rw [← List.take_append_drop k items, List.map_append] at hnd2
    have hdisj := (List.nodup_append.mp hnd2).2.2
    exact hdisj (List.mem_map.mpr ⟨it, hit, rfl⟩) hmem
  · trivial

/-- Claim C2 counterexample: with `maxEntries = 0` and one inserted entry
(`k = 1`, distinct handles, no expiry), the cache ends with 1 entry, not
`maxEntries = 0` (eviction-before-insert cannot keep the map at size
zero); and with `maxEntries = 2` and the three distinct handles `""`,
`"b"`, `"c"` inserted in timestamp order, the cache ends with 3 entries,
not 2: the oldest entry is keyed by the falsy empty string, so the
source's `if (oldestId)` test skips the eviction. -/
theorem claim_C2_counterexample :
    ((runSets (ResultCache.mkEmpty 10 0)
        [("A", 1)]).searchCache.length = 1
    ∧ (runSets (ResultCache.mkEmpty 10 0)
        [("A", 1)]).searchCache.length ≠ 0)
    ∧ ((runSets (ResultCache.mkEmpty 10 2)
        [("", 1), ("b", 2), ("c", 3)]).searchCache.length = 3
    ∧ (runSets (ResultCache.mkEmpty 10 2)
        [("", 1), ("b", 2), ("c", 3)]).searchCache.length ≠ 2) := by
  decide

/-- Concrete instantiation of the amended claim C2: capacity 2, three
inserts A, B, C; the cache ends with exactly B and C, A is absent. -/
theorem claim_C2_witness :
    (runSets (ResultCache.mkEmpty 10 2)
      [("A", 1), ("B", 2), ("C", 3)]).searchCache.length = 2
    ∧ (∀ it ∈ [(("A", 1) : String × Nat)],
        mapGet (runSets (ResultCache.mkEmpty 10 2)
          [("A", 1), ("B", 2), ("C", 3)]).searchCache it.1 = none)
    ∧ (runSets (ResultCache.mkEmpty 10 2)
        [("A", 1), ("B", 2), ("C", 3)]).searchCache =
        [("B", 2), ("C", 3)].map mkSearchPair := by
  have h := claim_C2_amended_capacity_invariant 10 2 1
    [("A", 1), ("B", 2), ("C", 3)] (by decide) (by decide) (by decide)
    (by decide) (by decide) (by decide)
  exact h

/-! ## Claim C4 -/

theorem chunkArrayAux_flatten {α : Type} :
    ∀ (fuel : Nat) (l : List α) (n : Nat), l.length ≤ fuel →
      (chunkArrayAux fuel l n).flatten = l := by
  intro fuel
  induction fuel with
  | zero =>
    intro l n hl
    rcases l with _ | ⟨x, xs⟩
    · rfl
    · simp at hl
  | succ f ih =>
    intro l n hl
    rcases l with _ | ⟨x, xs⟩
    · rfl
    · rw [chunkArrayAux]
      simp only [List.flatten_cons]
      rw [ih (xs.drop n) n (by
        simp only [List.length_cons] at hl
        simp only [List.length_drop]
        omega)]
      rw [List.take_succ_cons, List.cons_append, List.take_append_drop]

theorem chunkArray_flatten {α : Type} (l : List α) (n : Nat) :
    (chunkArray l (n + 1)).flatten = l :=
  chunkArrayAux_flatten l.length l n le_rfl

theorem foldl_synth (f : GraphBatchRequest → GraphBatchResponse) :
    ∀ (chunks : List (List GraphBatchRequest))
      (acc : List GraphBatchResponse),
      chunks.foldl (fun a ch => a ++ ch.map f) acc =
        acc ++ chunks.flatten.map f := by
  intro chunks
  induction chunks with
  | nil => intro acc; simp
  | cons ch rest ih =>
    intro acc
    rw [List.foldl_cons, ih, List.flatten_cons, List.map_append,
      List.append_assoc]

theorem executeBatch_totalFailure (err : String)
    (reqs : List GraphBatchRequest) :
    executeBatch (fun _ => Except.error err) reqs =
      reqs.map (synthFailure err) := by
  rw [executeBatch]
  by_cases hreq : reqs = []
  · simp [hreq]
  · rw [if_neg hreq]
    show (chunkArray reqs 20).foldl
      (fun a ch => a ++ ch.map (synthFailure err)) [] =
      reqs.map (synthFailure err)
    rw [foldl_synth (synthFailure err) (chunkArray reqs 20) []]
    rw [show (20 : Nat) = 19 + 1 from rfl, chunkArray_flatten reqs 19]
    simp

theorem foldl_mapSet_notmem {β : Type} (f : Nat × String → β) :
    ∀ (l : List (Nat × String)) (acc : List (String × β)) (key : String),
      key ∉ l.map Prod.snd →
      mapGet (l.foldl (fun results p => mapSet results p.2 (f p)) acc)
        key = mapGet acc key := by
  intro l
  induction l with
  | nil => intro acc key _; rfl
  | cons p rest ih =>
    intro acc key hkey
    rw [List.foldl_cons]
    have hne : key ≠ p.2 := by
      intro h
      exact hkey (h ▸ List.mem_map.mpr ⟨p, List.mem_cons_self _ _, rfl⟩)
    rw [ih (mapSet acc p.2 (f p)) key
      (fun hm => hkey (List.mem_cons_of_mem _
        (by simpa using hm) : key ∈ (p :: rest).map Prod.snd))]
    exact mapGet_mapSet_ne acc p.2 key (f p) hne

theorem foldl_mapSet_keys {β : Type} (f : Nat × String → β) :
    ∀ (l : List (Nat × String)) (acc : List (String × β)),
      (l.map Prod.snd).Nodup →
      (∀ p ∈ l, p.2 ∉ acc.map Prod.fst) →
      (l.foldl (fun results p => mapSet results p.2 (f p)) acc).map
        Prod.fst = acc.map Prod.fst ++ l.map Prod.snd := by
  intro l
  induction l with
  | nil => intro acc _ _; simp
  | cons p rest ih =>
    intro acc hnd hfresh
    rw [List.foldl_cons]
    have hp : p.2 ∉ acc.map Prod.fst := hfresh p (List.mem_cons_self _ _)
    rw [mapSet_of_not_mem (f p) hp]
    have hnd0 : (p.2 :: rest.map Prod.snd).Nodup := by simpa using hnd
    have hnd' : (rest.map Prod.snd).Nodup := (List.nodup_cons.mp hnd0).2
    have hph : p.2 ∉ rest.map Prod.snd := (List.nodup_cons.mp hnd0).1
    have hfresh' : ∀ q ∈ rest,
        q.2 ∉ (acc ++ [(p.2, f p)]).map Prod.fst := by
      intro q hq
      rw [List.map_append]
      intro hmem
      rcases List.mem_append.mp hmem with h1 | h2
      · exact hfresh q (List.mem_cons_of_mem _ hq) h1
      · simp only [List.map_cons, List.map_nil, List.mem_singleton] at h2
        exact hph (h2 ▸ List.mem_map.mpr ⟨q, hq, rfl⟩)
    rw [ih (acc ++ [(p.2, f p)]) hnd' hfresh']
    simp [List.map_append]

theorem foldl_mapSet_get {β : Type} (f : Nat × String → β) :
    ∀ (l : List (Nat × String)) (acc : List (String × β)),
      (l.map Prod.snd).Nodup →
      (∀ p ∈ l, p.2 ∉ acc.map Prod.fst) →
      ∀ i ent, (i, ent) ∈ l →
        mapGet (l.foldl (fun results p => mapSet results p.2 (f p)) acc)
          ent = some (f (i, ent)) := by
  intro l
  induction l with
  | nil => intro acc _ _ i ent hmem; simp at hmem
  | cons p rest ih =>
    intro acc hnd hfresh i ent hmem
    rw [List.foldl_cons]
    have hp : p.2 ∉ acc.map Prod.fst := hfresh p (List.mem_cons_self _ _)
    rw [mapSet_of_not_mem (f p) hp]
    have hnd0 : (p.2 :: rest.map Prod.snd).Nodup := by simpa using hnd
    have hnd' : (rest.map Prod.snd).Nodup := (List.nodup_cons.mp hnd0).2
    have hph : p.2 ∉ rest.map Prod.snd := (List.nodup_cons.mp hnd0).1
    rcases List.mem_cons.mp hmem with heq | hmem'
    · have h2 : p.2 = ent := by rw [← heq]
      have hentrest : ent ∉ rest.map Prod.snd := h2 ▸ hph
      rw [foldl_mapSet_notmem f rest (acc ++ [(p.2, f p)]) ent hentrest]
      have haccent : mapGet acc ent = none :=
        (mapGet_eq_none_iff acc ent).mpr (h2 ▸ hp)
      rw [mapGet_append _ _ _ haccent, ← heq]
      simp [mapGet, List.find?_cons]
    · have hfresh' : ∀ q ∈ rest,
          q.2 ∉ (acc ++ [(p.2, f p)]).map Prod.fst := by
        intro q hq
        rw [List.map_append]
        intro hmem2
        rcases List.mem_append.mp hmem2 with h1 | h2
        · exact hfresh q (List.mem_cons_of_mem _ hq) h1
        · simp only [List.map_cons, List.map_nil,
            List.mem_singleton] at h2
          exact hph (h2 ▸ List.mem_map.mpr ⟨q, hq, rfl⟩)
      exact ih (acc ++ [(p.2, f p)]) hnd' hfresh' i ent hmem'

theorem objSet_ne_proto {α : Type} (m : List (String × α)) (k : String)
    (v : α) (h : k ≠ "__proto__") : objSet m k v = mapSet m k v := by
  rw [objSet, if_neg h]

theorem foldl_objSet_eq_mapSet {β : Type} (f : Nat × String → β) :
    ∀ (l : List (Nat × String)) (acc : List (String × β)),
      (∀ p ∈ l, p.2 ≠ "__proto__") →
      l.foldl (fun results p => objSet results p.2 (f p)) acc =
        l.foldl (fun results p => mapSet results p.2 (f p)) acc := by
  intro l
  induction l with
  | nil => intro acc _; rfl
  | cons p rest ih =>
    intro acc hok
    rw [List.foldl_cons, List.foldl_cons,
      objSet_ne_proto acc p.2 (f p) (hok p (List.mem_cons_self _ _))]
    exact ih _ (fun q hq => hok q (List.mem_cons_of_mem _ hq))

theorem insertNumAsc_perm (k : String) :
    ∀ l : List String, List.Perm (insertNumAsc k l) (k :: l) := by
  intro l
  induction l with
  | nil => exact List.Perm.refl _
  | cons x xs ih =>
    rw [insertNumAsc]
    by_cases hc : digitsToNat k.data < digitsToNat x.data
    · rw [if_pos hc]
    · rw [if_neg hc]
      exact (ih.cons x).trans (List.Perm.swap k x xs)

theorem foldr_insertNumAsc_perm :
    ∀ l : List String, List.Perm (l.foldr insertNumAsc []) l := by
  intro l
  induction l with
  | nil => exact List.Perm.refl _
  | cons x xs ih =>
    rw [List.foldr_cons]
    exact (insertNumAsc_perm x (xs.foldr insertNumAsc [])).trans
      (ih.cons x)

theorem objKeys_perm {α : Type} (m : List (String × α)) :
    List.Perm (objKeys m) (m.map Prod.fst) := by
  rw [objKeys]
  exact ((foldr_insertNumAsc_perm _).append_right _).trans
    ((m.map Prod.fst).filter_append_perm isArrayIndexStr)

/-- Claim C4 (amended): for every list of M pairwise-distinct entities
none of which is the string `"__proto__"`, the batch entity search
returns an object whose own-key enumeration is a permutation of the
entity list — exactly M keys, one per entity, including M = 0 —
regardless of upstream failures; a totally-failed chunk is replaced by
synthesized responses carrying each request's id with status 500; and a
per-item non-200 status is preserved verbatim in that entity's outcome
slot.  Amendments: duplicate entity strings collapse onto one JS object
key, and assigning the key `"__proto__"` on a plain object hits the
inherited prototype setter and creates no own key, so both are excluded;
the key enumeration is a permutation (not the input order) because a JS
object enumerates integer-like keys first in ascending order. -/
theorem claim_C4_amended_dispatch :
    ∀ (upstream : List GraphBatchRequest →
        Except String (List GraphBatchResponse))
      (dv : String → Int) (entities keywords : List String)
      (dateFrom dateTo : Option String) (maxPer : Nat)
      (reqs : List GraphBatchRequest) (err : String) (i : Nat)
      (ent : String) (resp : GraphBatchResponse),
      (entities.Nodup → "__proto__" ∉ entities →
        List.Perm (objKeys (searchByEntitiesExecute upstream dv entities
          keywords dateFrom dateTo maxPer)) entities
        ∧ (objKeys (searchByEntitiesExecute upstream dv entities
            keywords dateFrom dateTo maxPer)).length = entities.length)
      ∧ executeBatch (fun _ => Except.error err) reqs =
          reqs.map (synthFailure err)
      ∧ (∀ req ∈ reqs, (synthFailure err req).id = req.id
          ∧ (synthFailure err req).status = 500)
      ∧ (entities.Nodup → "__proto__" ∉ entities →
          entities.get? i = some ent →
          (executeBatch upstream (entityBatchRequests entities keywords
            dateFrom dateTo maxPer)).find?
              (fun r => r.id == natDecimalStr i) = some resp →
          resp.status ≠ 200 →
          mapGet (searchByEntitiesExecute upstream dv entities keywords
            dateFrom dateTo maxPer) ent =
            some ⟨0, none, [],
              some ("Error " ++ natDecimalStr resp.status ++ ": " ++
                getErrorMessage resp.body)⟩) := by
  intro upstream dv entities keywords dateFrom dateTo maxPer reqs err i
    ent resp
  refine ⟨?_, executeBatch_totalFailure err reqs,
    fun req _ => ⟨rfl, rfl⟩, ?_⟩
  · intro hnd hproto
    have hpr : ∀ p ∈ entities.enum, p.2 ≠ "__proto__" := by
      intro p hp hpe
      apply hproto
      rw [← hpe, ← List.enum_map_snd entities]
      exact List.mem_map_of_mem Prod.snd hp
    have hconv : searchByEntitiesExecute upstream dv entities keywords
        dateFrom dateTo maxPer =
        entities.enum.foldl (fun results p => mapSet results p.2
          (buildOutcome dv maxPer ((executeBatch upstream
            (entityBatchRequests entities keywords dateFrom dateTo
              maxPer)).find? (fun r => r.id == natDecimalStr p.1)))) [] :=
      foldl_objSet_eq_mapSet _ entities.enum [] hpr
    have hkeys := foldl_mapSet_keys
      (fun p => buildOutcome dv maxPer ((executeBatch upstream
        (entityBatchRequests entities keywords dateFrom dateTo
          maxPer)).find? (fun r => r.id == natDecimalStr p.1)))
      entities.enum []
      (by rw [List.enum_map_snd]; exact hnd)
      (by intro p _ hmem; simp at hmem)
    have hstore : (searchByEntitiesExecute upstream dv entities keywords
        dateFrom dateTo maxPer).map Prod.fst = entities := by
      rw [hconv]
      exact hkeys.trans (by simp [List.enum_map_snd])
    have hp := objKeys_perm (searchByEntitiesExecute upstream dv entities
      keywords dateFrom dateTo maxPer)
    rw [hstore] at hp
    exact ⟨hp, hp.length_eq⟩
  · intro hnd hproto hget hfind hstatus
    have hpr : ∀ p ∈ entities.enum, p.2 ≠ "__proto__" := by
      intro p hp hpe
      apply hproto
      rw [← hpe, ← List.enum_map_snd entities]
      exact List.mem_map_of_mem Prod.snd hp
    have hconv : searchByEntitiesExecute upstream dv entities keywords
        dateFrom dateTo maxPer =
        entities.enum.foldl (fun results p => mapSet results p.2
          (buildOutcome dv maxPer ((executeBatch upstream
            (entityBatchRequests entities keywords dateFrom dateTo
              maxPer)).find? (fun r => r.id == natDecimalStr p.1)))) [] :=
      foldl_objSet_eq_mapSet _ entities.enum [] hpr
    have hmem : (i, ent) ∈ entities.enum :=
      List.mk_mem_enum_iff_get?.mpr hget
    have hval := foldl_mapSet_get
      (fun p => buildOutcome dv maxPer ((executeBatch upstream
        (entityBatchRequests entities keywords dateFrom dateTo
          maxPer)).find? (fun r => r.id == natDecimalStr p.1)))
      entities.enum []
      (by rw [List.enum_map_snd]; exact hnd)
      (by intro p _ hmem2; simp at hmem2)
      i ent hmem
    have houtcome : buildOutcome dv maxPer ((executeBatch upstream
        (entityBatchRequests entities keywords dateFrom dateTo
          maxPer)).find? (fun r => r.id == natDecimalStr i)) =
        ⟨0, none, [],
          some ("Error " ++ natDecimalStr resp.status ++ ": " ++
            getErrorMessage resp.body)⟩ := by
      rw [hfind]
      simp only [buildOutcome]
      rw [if_pos hstatus]
    rw [hconv]
    exact hval.trans (by simp only [houtcome])

/-- Claim C4 counterexample: the duplicate entity list `["a", "a"]` has
`M = 2` logical queries but the result object collapses to a single own
key; and the distinct list `["__proto__"]` has `M = 1` but assigning
`results["__proto__"]` hits the plain object's prototype setter and
creates no own key at all, so the result has zero keys — both refuting
"exactly M keys, one per supplied entity". -/
theorem claim_C4_counterexample :
    ((searchByEntitiesExecute (fun _ => Except.error "boom")
        (fun _ => 0) ["a", "a"] [] none none 5).map Prod.fst = ["a"]
    ∧ ["a", "a"].length = 2
    ∧ (searchByEntitiesExecute (fun _ => Except.error "boom")
        (fun _ => 0) ["a", "a"] [] none none 5).length ≠ 2)
    ∧ ((searchByEntitiesExecute (fun _ => Except.error "boom")
        (fun _ => 0) ["__proto__"] [] none none 5).length = 0
    ∧ (objKeys (searchByEntitiesExecute (fun _ => Except.error "boom")
        (fun _ => 0) ["__proto__"] [] none none 5)).length = 0
    ∧ ["__proto__"].length = 1) := by
  exact ⟨⟨by decide, rfl, by decide⟩, by decide, by decide, rfl⟩

/-- Concrete instantiation of the amended claim C4: two distinct
non-proto entities with a totally failing upstream still give exactly the
two keys; a one-request batch on a failing upstream yields the
synthesized status-500 response; and a per-item 429 lands verbatim in
that entity's outcome slot. -/
theorem claim_C4_witness :
    List.Perm (objKeys (searchByEntitiesExecute
      (fun _ => Except.error "boom") (fun _ => 0) ["a", "b"] [] none
      none 5)) ["a", "b"]
    ∧ executeBatch (fun _ => Except.error "boom")
        [{ id := "0", method := "GET", url := "u" }] =
        [{ id := "0", method := "GET", url := "u" }].map
          (synthFailure "boom")
    ∧ mapGet (searchByEntitiesExecute
        (fun _ => Except.ok [⟨"0", 429, BatchBody.emptyBody⟩])
        (fun _ => 0) ["a"] [] none none 5) "a" =
        some ⟨0, none, [],
          some ("Error " ++ natDecimalStr 429 ++ ": " ++
            getErrorMessage BatchBody.emptyBody)⟩ := by
  have h1 := claim_C4_amended_dispatch (fun _ => Except.error "boom")
    (fun _ => 0) ["a", "b"] [] none none 5
    [{ id := "0", method := "GET", url := "u" }] "boom" 0 "a"
    ⟨"0", 500, BatchBody.emptyBody⟩
  have h2 := claim_C4_amended_dispatch
    (fun _ => Except.ok [⟨"0", 429, BatchBody.emptyBody⟩])
    (fun _ => 0) ["a"] [] none none 5 [] "x" 0 "a"
    ⟨"0", 429, BatchBody.emptyBody⟩
  exact ⟨(h1.1 (by decide) (by decide)).1, h1.2.1,
    h2.2.2.2 (by decide) (by decide) (by decide) (by decide)
      (by decide)⟩

/-! ## Claim C1 -/

theorem mapGet_mapDelete_sub {α : Type} (m : List (String × α))
    (s k : String) (v : α) (h : mapGet (mapDelete m s) k = some v) :
    mapGet m k = some v := by
  by_cases hk : k = s
  · subst hk
    rw [mapGet_mapDelete_self] at h
    exact Option.noConfusion h
  · rwa [mapGet_mapDelete_ne m s k hk] at h

theorem getSearchResults_eq (c : ResultCache) (now : Nat)
    (sid : String) :
    c.getSearchResults now sid =
      ((c.get now sid).1.map (fun cached => cached.results),
       (c.get now sid).2) := rfl

theorem getSearchResults_some (c : ResultCache) (now : Nat) (sid : String)
    (results : List CopilotRetrievalHit)
    (h : (c.getSearchResults now sid).1 = some results) :
    ∃ e, mapGet c.searchCache sid = some e
      ∧ now - e.timestamp ≤ c.ttlMs
      ∧ e.results = results
      ∧ (c.getSearchResults now sid).2 = c := by
  rcases hget : mapGet c.searchCache sid with _ | e
  · rw [getSearchResults_eq, get_absent c now sid hget] at h
    exact Option.noConfusion h
  · by_cases hexp : now - e.timestamp > c.ttlMs
    · rw [getSearchResults_eq, get_expired c now sid e hget hexp] at h
      exact Option.noConfusion h
    · have hl := get_live c now sid e hget (by omega)
      rw [getSearchResults_eq, hl] at h
      refine ⟨e, rfl, by omega, Option.some.inj h, ?_⟩
      rw [getSearchResults_eq, hl]

theorem getSearchResults_sub (c : ResultCache) (now : Nat) (sid : String) :
    ((c.getSearchResults now sid).2).ttlMs = c.ttlMs
    ∧ ((c.getSearchResults now sid).2).attachmentCache =
        c.attachmentCache
    ∧ ∀ k e, mapGet ((c.getSearchResults now sid).2).searchCache k =
        some e → mapGet c.searchCache k = some e := by
  rcases hget : mapGet c.searchCache sid with _ | e
  · rw [getSearchResults_eq, get_absent c now sid hget]
    exact ⟨rfl, rfl, fun k e h => h⟩
  · by_cases hexp : now - e.timestamp > c.ttlMs
    · rw [getSearchResults_eq, get_expired c now sid e hget hexp]
      exact ⟨rfl, rfl, fun k v h => mapGet_mapDelete_sub _ _ _ _ h⟩
    · rw [getSearchResults_eq, get_live c now sid e hget (by omega)]
      exact ⟨rfl, rfl, fun k v h => h⟩

theorem getAttachment_hit (c : ResultCache) (now : Nat) (aid : String)
    (e : CachedAttachment) (hget : mapGet c.attachmentCache aid = some e)
    (hlive : now - e.timestamp ≤ c.ttlMs) :
    c.getAttachment now aid = (some e.attachment, c) := by
  simp only [ResultCache.getAttachment, hget]
  rw [if_neg (by omega : ¬now - e.timestamp > c.ttlMs)]

theorem getAttachment_expired (c : ResultCache) (now : Nat) (aid : String)
    (e : CachedAttachment) (hget : mapGet c.attachmentCache aid = some e)
    (hexp : now - e.timestamp > c.ttlMs) :
    c.getAttachment now aid =
      (none, { c with attachmentCache := mapDelete c.attachmentCache aid }) := by
  simp only [ResultCache.getAttachment, hget]
  rw [if_pos (by omega : now - e.timestamp > c.ttlMs)]

theorem getAttachment_absent (c : ResultCache) (now : Nat) (aid : String)
    (hget : mapGet c.attachmentCache aid = none) :
    c.getAttachment now aid = (none, c) := by
  simp only [ResultCache.getAttachment, hget]

theorem getAttachment_some (c : ResultCache) (now : Nat) (aid : String)
    (att : AttachmentData)
    (h : (c.getAttachment now aid).1 = some att) :
    ∃ e, mapGet c.attachmentCache aid = some e
      ∧ now - e.timestamp ≤ c.ttlMs
      ∧ e.attachment = att
      ∧ (c.getAttachment now aid).2 = c := by
  rcases hget : mapGet c.attachmentCache aid with _ | e
  · rw [getAttachment_absent c now aid hget] at h
    exact Option.noConfusion h
  · by_cases hexp : now - e.timestamp > c.ttlMs
    · rw [getAttachment_expired c now aid e hget hexp] at h
      exact Option.noConfusion h
    · rw [getAttachment_hit c now aid e hget (by omega)] at h ⊢
      exact ⟨e, rfl, by omega, by injection h, rfl⟩

theorem getAttachment_sub (c : ResultCache) (now : Nat) (aid : String) :
    ((c.getAttachment now aid).2).ttlMs = c.ttlMs
    ∧ ((c.getAttachment now aid).2).searchCache = c.searchCache
    ∧ ∀ k e, mapGet ((c.getAttachment now aid).2).attachmentCache k =
        some e → mapGet c.attachmentCache k = some e := by
  rcases hget : mapGet c.attachmentCache aid with _ | e
  · rw [getAttachment_absent c now aid hget]
    exact ⟨rfl, rfl, fun k e h => h⟩
  · by_cases hexp : now - e.timestamp > c.ttlMs
    · rw [getAttachment_expired c now aid e hget hexp]
      exact ⟨rfl, rfl, fun k v h => mapGet_mapDelete_sub _ _ _ _ h⟩
    · rw [getAttachment_hit c now aid e hget (by omega)]
      exact ⟨rfl, rfl, fun k v h => h⟩

theorem collectSearch_live :
    ∀ (ids : List String) (c c0 : ResultCache) (now : Nat),
      c.ttlMs = c0.ttlMs →
      (∀ k e, mapGet c.searchCache k = some e →
        mapGet c0.searchCache k = some e) →
      ∀ d ∈ (collectSearchResources c now ids).1,
        ∃ sid e, mapGet c0.searchCache sid = some e
          ∧ now - e.timestamp ≤ c0.ttlMs
          ∧ d ∈ searchDescriptors sid e.results := by
  intro ids
  induction ids with
  | nil =>
    intro c c0 now _ _ d hd
    simp [collectSearchResources] at hd
  | cons sid rest ih =>
    intro c c0 now httl hsub d hd
    simp only [collectSearchResources] at hd
    rcases hr : (c.getSearchResults now sid).1 with _ | results
    · rw [hr] at hd
      have hsub2 := getSearchResults_sub c now sid
      exact ih _ c0 now (hsub2.1.trans httl)
        (fun k e h => hsub k e (hsub2.2.2 k e h)) d hd
    · rw [hr] at hd
      obtain ⟨e, hget, hlive, hres, hstate⟩ :=
        getSearchResults_some c now sid results hr
      rcases List.mem_append.mp hd with hmem | hmem
      · refine ⟨sid, e, hsub sid e hget, ?_, ?_⟩
        · rw [← httl]
          exact hlive
        · rw [hres]
          exact hmem
      · rw [hstate] at hmem
        exact ih c c0 now httl hsub d hmem

theorem collectAttachment_live (fmtBytes : Nat → String) :
    ∀ (ids : List String) (c c0 : ResultCache) (now : Nat),
      c.ttlMs = c0.ttlMs →
      (∀ k e, mapGet c.attachmentCache k = some e →
        mapGet c0.attachmentCache k = some e) →
      ∀ d ∈ (collectAttachmentResources fmtBytes c now ids).1,
        ∃ aid e, mapGet c0.attachmentCache aid = some e
          ∧ now - e.timestamp ≤ c0.ttlMs
          ∧ d = attachmentDescriptor fmtBytes aid e.attachment := by
  intro ids
  induction ids with
  | nil =>
    intro c c0 now _ _ d hd
    simp [collectAttachmentResources] at hd
  | cons aid rest ih =>
    intro c c0 now httl hsub d hd
    simp only [collectAttachmentResources] at hd
    rcases hr : (c.getAttachment now aid).1 with _ | att
    · rw [hr] at hd
      have hsub2 := getAttachment_sub c now aid
      exact ih _ c0 now (hsub2.1.trans httl)
        (fun k e h => hsub k e (hsub2.2.2 k e h)) d hd
    · rw [hr] at hd
      obtain ⟨e, hget, hlive, hatt, hstate⟩ :=
        getAttachment_some c now aid att hr
      rcases List.mem_cons.mp hd with hmem | hmem
      · refine ⟨aid, e, hsub aid e hget, ?_, ?_⟩
        · rw [← httl]
          exact hlive
        · rw [hmem, hatt]
      · rw [hstate] at hmem
        exact ih c c0 now httl hsub d hmem

theorem collectSearch_preserves :
    ∀ (ids : List String) (c : ResultCache) (now : Nat),
      ((collectSearchResources c now ids).2).attachmentCache =
        c.attachmentCache
      ∧ ((collectSearchResources c now ids).2).ttlMs = c.ttlMs := by
  intro ids
  induction ids with
  | nil => intro c now; exact ⟨rfl, rfl⟩
  | cons sid rest ih =>
    intro c now
    have hs := getSearchResults_sub c now sid
    have iht := ih ((c.getSearchResults now sid).2) now
    rcases hr : (c.getSearchResults now sid).1 with _ | results <;>
      simp only [collectSearchResources, hr] <;>
      exact ⟨iht.1.trans hs.2.1, iht.2.trans hs.1⟩

/-- Claim C1 (amended): `listSearchIds` and `listAttachmentIds` return
the handles of all stored entries, without any liveness filtering —
expired-but-unswept entries are still listed.  The spec's intent holds
one layer up: the resource-listing handler passes every raw handle
through `getSearchResults` / `getAttachment` (the same liveness check as
`get`), so every descriptor in the ListResources output stems from an
entry that is live at the instant of listing. -/
theorem claim_C1_amended_listing :
    ∀ (c : ResultCache) (now : Nat) (fmtBytes : Nat → String)
      (d : ResourceDescriptor),
      c.listSearchIds = c.searchCache.map Prod.fst
      ∧ c.listAttachmentIds = c.attachmentCache.map Prod.fst
      ∧ (d ∈ (listResources fmtBytes c now).1 →
          (∃ sid e, mapGet c.searchCache sid = some e
            ∧ now - e.timestamp ≤ c.ttlMs
            ∧ d ∈ searchDescriptors sid e.results)
          ∨ (∃ aid e, mapGet c.attachmentCache aid = some e
            ∧ now - e.timestamp ≤ c.ttlMs
            ∧ d = attachmentDescriptor fmtBytes aid e.attachment)) := by
  intro c now fmtBytes d
  refine ⟨rfl, rfl, ?_⟩
  intro hd
  rw [listResources] at hd
  rcases List.mem_append.mp hd with hmem | hmem
  · exact Or.inl (collectSearch_live c.listSearchIds c c now rfl
      (fun _ _ h => h) d hmem)
  · have hpres := collectSearch_preserves c.listSearchIds c now
    refine Or.inr (collectAttachment_live fmtBytes _
      (collectSearchResources c now c.listSearchIds).2 c now
      hpres.2 ?_ d hmem)
    intro k e h
    rwa [hpres.1] at h

def c1att : AttachmentData :=
  { name := "f", contentType := "text/plain", contentBytes := "AA",
    size := 2 }

def c1cache : ResultCache :=
  { searchCache := [("h", ⟨"h", "q", 0, []⟩)],
    attachmentCache := [("a", ⟨"a", "m", 0, c1att⟩)],
    ttlMs := 5, maxEntries := 100 }

/-- Claim C1 counterexample: at `now = 10` both stored entries are
logically expired (age 10 > ttl 5) — `get`/`getAttachment` miss — yet
`listSearchIds`/`listAttachmentIds` still return their handles; the raw
listing operations do not apply the liveness check. -/
theorem claim_C1_counterexample :
    "h" ∈ c1cache.listSearchIds
    ∧ 10 - (0 : Nat) > c1cache.ttlMs
    ∧ (c1cache.get 10 "h").1 = none
    ∧ "a" ∈ c1cache.listAttachmentIds
    ∧ (c1cache.getAttachment 10 "a").1 = none := by
  decide

def c1wcache : ResultCache :=
  { searchCache := [("s", ⟨"s", "q", 0, [c6hit0]⟩)],
    attachmentCache := [("a", ⟨"a", "m", 0, c1att⟩)],
    ttlMs := 5, maxEntries := 100 }

def c1wdesc : ResourceDescriptor :=
  { uri := "copilot://search-s/result-0",
    name := "Search result 1 from s",
    description := "Full text extracts for u0",
    mimeType := "application/json" }

/-- Concrete instantiation of the amended claim C1: with one live search
entry and one live attachment at `now = 3`, the advertised search
descriptor stems from a live entry. -/
theorem claim_C1_witness :
    c1wcache.listSearchIds = c1wcache.searchCache.map Prod.fst
    ∧ ((∃ sid e, mapGet c1wcache.searchCache sid = some e
        ∧ 3 - e.timestamp ≤ c1wcache.ttlMs
        ∧ c1wdesc ∈ searchDescriptors sid e.results)
      ∨ (∃ aid e, mapGet c1wcache.attachmentCache aid = some e
        ∧ 3 - e.timestamp ≤ c1wcache.ttlMs
        ∧ c1wdesc = attachmentDescriptor (fun _ => "2 B") aid
            e.attachment)) := by
  have h := claim_C1_amended_listing c1wcache 3 (fun _ => "2 B") c1wdesc
  exact ⟨h.1, h.2.2 (by decide)⟩

/-- Concrete instantiation of claim C9: two `setAttachment` calls for
`("m", "x")` return the same handle `"m:x"`. -/
theorem claim_C9_witness :
    (((ResultCache.mkEmpty 5 10).setAttachment 1 "m" "x"
        c1att).2.setAttachment 2 "m" "x" c1att).1 =
      ((ResultCache.mkEmpty 5 10).setAttachment 1 "m" "x" c1att).1
    ∧ ((ResultCache.mkEmpty 5 10).setAttachment 1 "m" "x" c1att).1 =
        generateAttachmentId "m" "x" :=
  claim_C9_idempotent_attachment_handles (ResultCache.mkEmpty 5 10) 1 2
    "m" "x" c1att c1att
